import Mathlib

/-!
Verification development for the Pico2CV step-sequencer core.

The C++ sources are shallowly embedded here:
* `src/sequencer/SequencerDefs.h` / `Sequencer.h` / `Sequencer.cpp` — the
  `Step`/`SequencerState` data model and the `Sequencer` class.  Methods that
  talk to the injected `SequencerIO*` capability are modelled as pure
  functions returning the successor state together with the list of calls
  made on the capability (`IOEvent`); the capability is assumed attached
  (non-null), and its `getScaleNote` member is a function parameter.
* `src/matrix/Matrix.cpp` — button-matrix scanning and event dispatch; the
  two callback slots are modelled as an emitted event list.
* `src/dsp/adsr.cpp` — the `Adsr::Process` state machine over exact
  rationals; the exponential coefficient set-up of `SetAttackTime` /
  `SetTimeConstant` is abstracted into the range facts it guarantees
  (each coefficient lies in (0,1], the attack target exceeds 1).

C `float`/`double` arithmetic is modelled by exact rational arithmetic;
machine-integer conversions (`uint8_t`, `int8_t`) are explicit `% 256`
wrappings.
-/

namespace Pico2CV

/-! ### C/C++ scalar conversion helpers -/

/-- Conversion of a C `int` value to `uint8_t` (reduction mod 256). -/
def u8OfInt (x : Int) : Nat := (x % 256).toNat

/-- Reinterpretation of a `uint8_t` value as `int8_t` (two's complement). -/
def i8OfU8 (n : Nat) : Int :=
  if n % 256 < 128 then ((n % 256 : Nat) : Int) else ((n % 256 : Nat) : Int) - 256

/-- Conversion of a C `int` value to `int8_t` (two's complement wrap). -/
def i8OfInt (x : Int) : Int := i8OfU8 (u8OfInt x)

/-- C float-to-integer conversion: truncation toward zero. -/
def ratTrunc (q : ℚ) : Int := if q < 0 then -(Int.floor (-q)) else Int.floor q

/-- C float-to-`uint8_t` conversion (in-range values truncate toward zero). -/
def u8OfRat (q : ℚ) : Nat := (ratTrunc q % 256).toNat

/-- The Arduino `map` macro: integer rescaling with C truncating division. -/
def arduinoMap (x inMin inMax outMin outMax : Int) : Int :=
  Int.tdiv ((x - inMin) * (outMax - outMin)) (inMax - inMin) + outMin

/-- The Arduino `constrain` macro on integers. -/
def constrainI (x lo hi : Int) : Int := if x < lo then lo else if hi < x then hi else x

/-- The Arduino `constrain` macro on floats (modelled on ℚ). -/
def constrainQ (x lo hi : ℚ) : ℚ := if x < lo then lo else if hi < x then hi else x

/-! ### Data model (`SequencerDefs.h`) -/

/-- `SEQUENCER_NUM_STEPS` in `SequencerDefs.h`. -/
def SEQUENCER_NUM_STEPS : Nat := 16

/-- `SCALE_ARRAY_SIZE` in `SequencerDefs.h` (= `scaleSize` in `Sequencer.cpp`). -/
def SCALE_ARRAY_SIZE : Nat := 40

/-- `MIDI_BASE_NOTE` in `Sequencer.cpp`. -/
def MIDI_BASE_NOTE : Int := 36

/-- `struct Step` from `SequencerDefs.h` with its member initializers. -/
structure Step where
  gate : Bool := false
  slide : Bool := false
  note : Int := 0
  velocity : ℚ := 1/2
  filter : ℚ := 1/2
deriving DecidableEq

/-- `struct SequencerState` from `SequencerDefs.h`: the 16-entry step array
is a list (well-formed states have length 16), plus playhead and running. -/
structure SequencerState where
  steps : List Step
  playhead : Nat
  running : Bool
deriving DecidableEq

/-- `SequencerState()` default constructor: default steps, playhead 0, stopped. -/
def SequencerState.initial : SequencerState :=
  ⟨List.replicate 16 {}, 0, false⟩

/-- The `Sequencer` class fields (`Sequencer.h`): its `SequencerState`,
`lastNote : int8_t`, `stepLength : uint8_t`, and the monophonic tracking
pair `currentNote : int8_t` / `noteDurationCounter : uint16_t`.  The
`SequencerIO*` member is modelled externally (assumed attached); the unused
`errorFlag` is omitted. -/
structure Sequencer where
  state : SequencerState
  lastNote : Int := -1
  stepLength : Nat := 16
  currentNote : Int := -1
  noteDurationCounter : Nat := 0
deriving DecidableEq

/-- Default-constructed `Sequencer` (both C++ constructors initialize the
fields identically apart from the capability pointer). -/
def Sequencer.initial : Sequencer := { state := SequencerState.initial }

/-- One call made on the injected `SequencerIO` capability. -/
inductive IOEvent where
  | noteOn (note vel channel : Nat)
  | noteOff (note vel channel : Nat)
  | trigEnv
  | relEnv
  | setNote1 (n : Int)
  | setVel1 (v : ℚ)
  | setFreq1 (f : ℚ)
deriving DecidableEq

/-- The scale-lookup capability `getScaleNote(int, int) → int`. -/
abbrev ScaleFn := Int → Int → Int

/-! ### Sequencer methods (`Sequencer.cpp`)

Each state-mutating method returns the successor `Sequencer` paired with the
list of capability calls it makes, in call order. -/

/-- `Sequencer::handleNoteOff` (`Sequencer.cpp:437`): if a note is active,
send `sendNoteOff(currentNote, 0, 1)` and clear the voice state. -/
def Sequencer.handleNoteOff (s : Sequencer) : Sequencer × List IOEvent :=
  if 0 ≤ s.currentNote then
    ({ s with currentNote := -1, noteDurationCounter := 0 },
      [.noteOff (u8OfInt s.currentNote) 0 1])
  else (s, [])

/-- `Sequencer::startNote` (`Sequencer.cpp:412`): record the note (through
the `uint8_t` parameter and the `int8_t` field) and duration, then send
`sendNoteOn(currentNote, velocity*127, 1)`. -/
def Sequencer.startNote (s : Sequencer) (note : Nat) (velocity : ℚ) (duration : Nat) :
    Sequencer × List IOEvent :=
  let cur := i8OfU8 note
  ({ s with currentNote := cur, noteDurationCounter := duration },
    [.noteOn (u8OfInt cur) (u8OfRat (velocity * 127)) 1])

/-- `Sequencer::tickNoteDuration` (`Sequencer.cpp:424`): while a note is
active, count down; on reaching zero, `handleNoteOff` then `releaseEnvelope`. -/
def Sequencer.tickNoteDuration (s : Sequencer) : Sequencer × List IOEvent :=
  if 0 ≤ s.currentNote ∧ 0 < s.noteDurationCounter then
    let c := s.noteDurationCounter - 1
    if c = 0 then
      let r := Sequencer.handleNoteOff { s with noteDurationCounter := c }
      (r.1, r.2 ++ [.relEnv])
    else ({ s with noteDurationCounter := c }, [])
  else (s, [])

/-- The scale-table index computed in `advanceStep`/`playStepNow`:
`(currentStep.note >= scaleSize) ? 0 : currentStep.note` where the `int`
note is compared against a `size_t`, so negative notes convert to huge
unsigned values and also select 0. -/
def scaleIndexOf (note : Int) : Nat :=
  if 0 ≤ note ∧ note < (SCALE_ARRAY_SIZE : Int) then note.toNat else 0

/-- `Sequencer::advanceStep` (`Sequencer.cpp:121`). -/
def Sequencer.advanceStep (scale : ScaleFn) (s : Sequencer) (k : Nat) :
    Sequencer × List IOEvent :=
  -- if (currentNote >= 0) handleNoteOff();
  let r0 := if 0 ≤ s.currentNote then s.handleNoteOff else (s, [])
  let s0 := r0.1
  -- state.playhead = current_uclock_step % stepLength;
  let ph := k % s0.stepLength
  let s1 : Sequencer := { s0 with state := { s0.state with playhead := ph } }
  let cur := s1.state.steps.getD ph {}
  if cur.gate then
    let scaleIndex := scaleIndexOf cur.note
    let newMidiNote := MIDI_BASE_NOTE + scale 0 (scaleIndex : Int)
    let evs := [IOEvent.setNote1 newMidiNote, IOEvent.setVel1 cur.velocity,
                IOEvent.setFreq1 (cur.filter * 1), IOEvent.trigEnv]
    let r1 := s1.startNote (u8OfInt newMidiNote) cur.velocity 24
    ({ r1.1 with lastNote := i8OfInt newMidiNote }, r0.2 ++ evs ++ r1.2)
  else
    let r1 := s1.handleNoteOff
    ({ r1.1 with lastNote := -1 }, r0.2 ++ r1.2 ++ [.relEnv])

/-- `Sequencer::playStepNow` (`Sequencer.cpp:223`): out-of-band preview;
note that it multiplies the filter by 5000 before `setFreq1`. -/
def Sequencer.playStepNow (scale : ScaleFn) (s : Sequencer) (stepIdx : Nat) :
    Sequencer × List IOEvent :=
  if s.stepLength ≤ stepIdx then (s, []) else
  let cur := s.state.steps.getD stepIdx {}
  let scaleIndex := scaleIndexOf cur.note
  let newMidiNote := MIDI_BASE_NOTE + scale 0 (scaleIndex : Int)
  (s, [IOEvent.setNote1 newMidiNote, IOEvent.setVel1 cur.velocity,
       IOEvent.setFreq1 (cur.filter * 5000), IOEvent.trigEnv])

/-- `Sequencer::toggleStep` (`Sequencer.cpp:278`). -/
def Sequencer.toggleStep (s : Sequencer) (stepIdx : Nat) : Sequencer :=
  if s.stepLength ≤ stepIdx then s else
  let cur := s.state.steps.getD stepIdx {}
  { s with state :=
      { s.state with steps := s.state.steps.set stepIdx { cur with gate := !cur.gate } } }

/-- `Sequencer::setStepNote` (`Sequencer.cpp:292`): only the index is
validated; the `uint8_t` note index is stored as-is. -/
def Sequencer.setStepNote (s : Sequencer) (stepIdx : Nat) (noteIndex : Nat) : Sequencer :=
  if s.stepLength ≤ stepIdx then s else
  let cur := s.state.steps.getD stepIdx {}
  { s with state :=
      { s.state with steps :=
          s.state.steps.set stepIdx { cur with note := ((noteIndex % 256 : Nat) : Int) } } }

/-- `Sequencer::setStepVelocity` (`Sequencer.cpp:303`): stores the 0–127
byte normalized by / 127. -/
def Sequencer.setStepVelocity (s : Sequencer) (stepIdx : Nat) (velocityByte : Nat) : Sequencer :=
  if s.stepLength ≤ stepIdx then s else
  let cur := s.state.steps.getD stepIdx {}
  let cur2 := { cur with velocity := ((velocityByte % 256 : Nat) : ℚ) / 127 }
  { s with state := { s.state with steps := s.state.steps.set stepIdx cur2 } }

/-- `Sequencer::setStepFiltFreq` (`Sequencer.cpp:310`): only the index is
validated; the float is stored as-is. -/
def Sequencer.setStepFiltFreq (s : Sequencer) (stepIdx : Nat) (filter : ℚ) : Sequencer :=
  if s.stepLength ≤ stepIdx then s else
  let cur := s.state.steps.getD stepIdx {}
  { s with state :=
      { s.state with steps := s.state.steps.set stepIdx { cur with filter := filter } } }

/-- `Sequencer::setStep` field-wise overload (`Sequencer.cpp:323`):
rejects out-of-range index, note, velocity or filter without mutating. -/
def Sequencer.setStepFields (s : Sequencer) (index : Int) (gate slide : Bool)
    (note : Int) (velocity filter : ℚ) : Sequencer :=
  if index < 0 ∨ (s.stepLength : Int) ≤ index then s else
  if note < 0 ∨ 24 < note then s else
  if velocity < 0 ∨ 1 < velocity then s else
  if filter < 0 ∨ 1 < filter then s else
  let newStep : Step := { gate := gate, slide := slide, note := note,
                          velocity := velocity, filter := filter }
  { s with state := { s.state with steps := s.state.steps.set index.toNat newStep } }

/-- `Sequencer::setStep` whole-`Step` overload (`Sequencer.cpp:350`). -/
def Sequencer.setStepObj (s : Sequencer) (index : Int) (stepData : Step) : Sequencer :=
  if index < 0 ∨ (s.stepLength : Int) ≤ index then s else
  if stepData.note < 0 ∨ 24 < stepData.note then s else
  if stepData.velocity < 0 ∨ 1 < stepData.velocity then s else
  if stepData.filter < 0 ∨ 1 < stepData.filter then s else
  { s with state := { s.state with steps := s.state.steps.set index.toNat stepData } }

/-- `Sequencer::getStep` (`Sequencer.cpp:375`): out-of-range indices are
redirected to index 0; the method is `const` (pure). -/
def Sequencer.getStep (s : Sequencer) (stepIdx : Nat) : Step :=
  let idx := if s.stepLength ≤ stepIdx then 0 else stepIdx
  s.state.steps.getD idx {}

/-- `Sequencer::initializeSteps` (`Sequencer.cpp:43`); `rand i` is the value
the `i`-th call of `random(200, 1000)` returns (a long in [200, 1000)). -/
def Sequencer.initializeSteps (rand : Nat → Int) (s : Sequencer) : Sequencer :=
  { s with state :=
      { s.state with steps :=
          (List.range SEQUENCER_NUM_STEPS).map fun i =>
            if i < s.stepLength then
              { gate := true, slide := false, note := 0,
                velocity := 100/127, filter := ((rand i : Int) : ℚ) }
            else ({} : Step) } }

/-- `Sequencer::init` (`Sequencer.cpp:37`). -/
def Sequencer.init (rand : Nat → Int) (s : Sequencer) : Sequencer :=
  Sequencer.initializeSteps rand
    { s with state := { s.state with playhead := 0, running := false } }

/-- Modelled from the spec: `Sequencer::resetState` is declared in
`Sequencer.h` and called by `Sequencer::reset`, but its definition is not
among the sources; the spec states that `reset()` behaves as `init()`:
playhead 0, stopped, steps reinitialized. -/
def Sequencer.resetState (rand : Nat → Int) (s : Sequencer) : Sequencer :=
  Sequencer.init rand s

/-- `Sequencer::reset` (`Sequencer.cpp:104`). -/
def Sequencer.reset (rand : Nat → Int) (s : Sequencer) : Sequencer :=
  Sequencer.resetState rand s

/-- `Sequencer::recordLiveParameters` (`Sequencer.cpp:171`). -/
def Sequencer.recordLiveParameters (s : Sequencer) (mmDistance : Int)
    (b16Held b17Held b18Held : Bool) (selectedStepForEdit : Int) : Sequencer :=
  -- branch 1: an explicitly selected step — independent writes per held button
  let s1 :=
    if 0 ≤ selectedStepForEdit ∧ selectedStepForEdit < (s.stepLength : Int) then
      let sel := selectedStepForEdit.toNat
      let sA :=
        if b16Held then
          let noteIndex := constrainI (arduinoMap mmDistance 50 400 0 24) 0 24
          s.setStepNote sel (u8OfInt noteIndex)
        else s
      let sB :=
        if b17Held then
          let velocity := constrainQ ((arduinoMap mmDistance 50 400 0 127 : Int) / 127 : ℚ) 0 1
          sA.setStepVelocity sel (u8OfRat (velocity * 127))
        else sA
      if b18Held then
        let filterFreq := constrainQ ((arduinoMap mmDistance 50 400 200 2000 : Int) : ℚ) 200 2000
        sB.setStepFiltFreq sel filterFreq
      else sB
    else s
  -- branch 2: no selection — auto-record into the playing step if gated
  if selectedStepForEdit = -1 then
    let cur := s1.state.steps.getD s1.state.playhead {}
    if cur.gate then
      if b16Held then
        let mmNote := constrainI (arduinoMap mmDistance 0 1400 0 24) 0 24
        let cur2 := { cur with note := mmNote }
        { s1 with state :=
            { s1.state with steps := s1.state.steps.set s1.state.playhead cur2 } }
      else if b17Held then
        let mmVelocity := constrainI (arduinoMap mmDistance 0 1400 0 1000) 0 1000
        let cur2 := { cur with velocity := ((mmVelocity : Int) : ℚ) / 1000 }
        { s1 with state :=
            { s1.state with steps := s1.state.steps.set s1.state.playhead cur2 } }
      else if b18Held then
        let mmFiltFreq := constrainI (arduinoMap mmDistance 0 1400 0 2000) 0 2000
        let cur2 := { cur with filter := ((mmFiltFreq : Int) : ℚ) }
        { s1 with state :=
            { s1.state with steps := s1.state.steps.set s1.state.playhead cur2 } }
      else s1
    else s1
  else s1

/-! ### Matrix input (`Matrix.cpp`)

The two callback slots (`risingEdgeHandler`, `eventHandler`) are modelled as
an emitted event list, in invocation order. -/

/-- `MATRIX_BUTTON_COUNT` from `Matrix.h`. -/
def MATRIX_BUTTON_COUNT : Nat := 32

/-- `MATRIX_ROW_INPUTS` from `Matrix.cpp`. -/
def MATRIX_ROW_INPUTS : List Nat := [3, 2, 1, 0]

/-- `MATRIX_COL_INPUTS` from `Matrix.cpp`. -/
def MATRIX_COL_INPUTS : List Nat := [4, 5, 6, 7, 8, 9, 10, 11]

/-- `setupMatrixMapping` (`Matrix.cpp:27`): button `idx` is the pair
`(MATRIX_ROW_INPUTS[idx / 8], MATRIX_COL_INPUTS[idx % 8])`. -/
def matrixButtons (idx : Nat) : Nat × Nat :=
  (MATRIX_ROW_INPUTS.getD (idx / 8) 0, MATRIX_COL_INPUTS.getD (idx % 8) 0)

/-- `scanMatrixButton` (`Matrix.cpp:40`): a button reads pressed iff both
its row bit and its column bit are set in the touch bitmask. -/
def scanMatrixButton (btn : Nat × Nat) (touchBits : Nat) : Bool :=
  touchBits.testBit btn.1 && touchBits.testBit btn.2

/-- One callback invocation made by `updateButtonStates`. -/
inductive MatrixEvent where
  | rising (buttonIndex : Nat)
  | pressed (buttonIndex : Nat)
  | released (buttonIndex : Nat)
deriving DecidableEq

/-- The loop body of `updateButtonStates` (`Matrix.cpp:47`) over an explicit
index list, threading the debounced-state array and appending callback
invocations. -/
def updateLoop (touchBits : Nat) : List Nat → List Bool → List Bool × List MatrixEvent
  | [], st => (st, [])
  | i :: rest, st =>
      let prev := st.getD i false
      let curr := scanMatrixButton (matrixButtons i) touchBits
      if curr ≠ prev then
        let evs := (if curr then [MatrixEvent.rising i] else []) ++
                   [if curr then MatrixEvent.pressed i else MatrixEvent.released i]
        let r := updateLoop touchBits rest (st.set i curr)
        (r.1, evs ++ r.2)
      else
        updateLoop touchBits rest st

/-- `updateButtonStates` (`Matrix.cpp:47`): one `Matrix_scan` pass over all
32 logical buttons for a given touch bitmask. -/
def updateButtonStates (touchBits : Nat) (st : List Bool) : List Bool × List MatrixEvent :=
  updateLoop touchBits (List.range MATRIX_BUTTON_COUNT) st

/-- `Matrix_getButtonState` (`Matrix.cpp:88`): false for out-of-range
indices, else the debounced state. -/
def Matrix_getButtonState (st : List Bool) (idx : Nat) : Bool :=
  if MATRIX_BUTTON_COUNT ≤ idx then false else st.getD idx false

/-! ### ADSR envelope (`adsr.cpp`)

`Adsr::Process` is embedded over ℚ.  The fields are exactly those the
`Process` method reads or writes (`x_`, `gate_`, `mode_`, `sus_level_`,
`attackTarget_`, `attackD0_`, `decayD0_`, `releaseD0_`); the cached
time/shape parameters only steer lazy coefficient recomputation in the
setters and never enter `Process`.  The setters compute each coefficient as
`1 - exp(negative/ (time·rate))`, hence a value in (0,1], and the attack
target polynomial `9·shape¹⁰ + 0.3·shape + 1.01` exceeds 1; theorems take
those range facts as hypotheses. -/

/-- The `ADSR_SEG_*` stage enum. -/
inductive AdsrSeg where
  | idle
  | attack
  | decay
  | release
deriving DecidableEq

/-- The state of an `Adsr` instance as read and written by `Process`. -/
structure Adsr where
  sus_level : ℚ
  attackTarget : ℚ
  attackD0 : ℚ
  decayD0 : ℚ
  releaseD0 : ℚ
  x : ℚ
  gate : Bool
  mode : AdsrSeg
deriving DecidableEq

/-- `Adsr::Retrigger` (`adsr.cpp:23`). -/
def Adsr.Retrigger (s : Adsr) (hard : Bool) : Adsr :=
  { s with mode := .attack, x := if hard then 0 else s.x }

/-- `Adsr::Process` (`adsr.cpp:76`): returns the successor state and the
output level.  A rising gate edge forces Attack; a falling edge is ignored
(the release branch of the original gate test is commented out in the
source). -/
def Adsr.Process (s : Adsr) (gate : Bool) : Adsr × ℚ :=
  let mode0 := if gate ∧ ¬ s.gate then AdsrSeg.attack else s.mode
  let s0 : Adsr := { s with mode := mode0, gate := gate }
  match mode0 with
  | .idle => (s0, 0)
  | .attack =>
      let x := s0.x + s0.attackD0 * (s0.attackTarget - s0.x)
      if 1 < x then ({ s0 with x := 1, mode := .decay }, 1)
      else ({ s0 with x := x }, x)
  | .decay =>
      let x := s0.x + s0.decayD0 * (s0.sus_level - s0.x)
      if |x - s0.sus_level| < 1/10000 then ({ s0 with x := x, mode := .release }, x)
      else ({ s0 with x := x }, x)
  | .release =>
      let x := s0.x + s0.releaseD0 * (-(1/100) - s0.x)
      if x < 0 then ({ s0 with x := 0, mode := .idle }, 0)
      else ({ s0 with x := x }, x)

/-- The state sequence of repeated `Process` calls against a gate stream:
`adsrRun g s0 n` is the state before call `n`. -/
def adsrRun (g : ℕ → Bool) (s0 : Adsr) : ℕ → Adsr
  | 0 => s0
  | n + 1 => (Adsr.Process (adsrRun g s0 n) (g n)).1

/-! ### Auxiliary list lemmas -/

lemma getD_set_self (l : List α) (i : Nat) (a d : α) (h : i < l.length) :
    (l.set i a).getD i d = a := by
  simp [List.getD_eq_getElem?_getD, List.getElem?_set_self h]

lemma getD_set_ne (l : List α) (i j : Nat) (a d : α) (h : i ≠ j) :
    (l.set i a).getD j d = l.getD j d := by
  simp [List.getD_eq_getElem?_getD, List.getElem?_set_ne h]

/-! ### Concrete states used to instantiate hypotheses -/

/-- A fully gated step with unit velocity and filter. -/
def stepOn : Step := { gate := true, slide := false, note := 0, velocity := 1, filter := 1 }

/-- A sequencer whose 16 steps are all `stepOn`. -/
def seqOn : Sequencer :=
  { state := { steps := List.replicate 16 stepOn, playhead := 0, running := true } }

/-! ### C10 — `getStep` out-of-range substitution -/

/-- C10: for `stepIdx ≥ stepLength`, `getStep` returns the step stored at
index 0; for `stepIdx < stepLength` it returns the step at `stepIdx`; being
a `const` method it cannot mutate state or signal an error (the embedding is
a pure function of the state). -/
theorem getStep_out_of_range_substitution (s : Sequencer) (stepIdx : Nat) :
    (s.stepLength ≤ stepIdx → s.getStep stepIdx = s.state.steps.getD 0 {}) ∧
    (stepIdx < s.stepLength → s.getStep stepIdx = s.state.steps.getD stepIdx {}) := by
  constructor <;> intro h
  · simp [Sequencer.getStep, h]
  · simp [Sequencer.getStep, Nat.not_le.mpr h]

/-- Witness for C10 at `stepIdx = 20` (out of range) and `stepIdx = 3`. -/
theorem getStep_out_of_range_substitution_witness :
    Sequencer.initial.getStep 20 = Sequencer.initial.state.steps.getD 0 {} ∧
    Sequencer.initial.getStep 3 = Sequencer.initial.state.steps.getD 3 {} :=
  ⟨(getStep_out_of_range_substitution Sequencer.initial 20).1 (by decide),
   (getStep_out_of_range_substitution Sequencer.initial 3).2 (by decide)⟩

/-! ### C3 — setter value validation -/

/-- Counterexample to C3: `setStepNote` does not validate the note value.
With the default-constructed sequencer, `setStepNote(0, 25)` overwrites the
target step's note with the out-of-range value 25 (it was 0). -/
theorem setStepNote_accepts_out_of_range :
    ((Sequencer.initial.setStepNote 0 25).state.steps.getD 0 {}).note = 25 ∧
    (Sequencer.initial.state.steps.getD 0 {}).note = 0 ∧
    ¬ (25 : Int) ≤ 24 := by decide

/-- C3 (amended): only the two `setStep` overloads reject out-of-range note,
velocity or filter values wholesale (no partial mutation, no clamping);
`setStepNote`, `setStepVelocity` and `setStepFiltFreq` validate only the
index and store the given value unchanged (the velocity byte normalized by
/ 127), even when it is out of range. -/
theorem setStep_value_validation (s : Sequencer) (index : Int) (g sl : Bool)
    (note : Int) (vel filt : ℚ) (stepData : Step) (idx noteIdx velByte : Nat)
    (filtVal : ℚ) :
    ((note < 0 ∨ 24 < note) → s.setStepFields index g sl note vel filt = s) ∧
    ((vel < 0 ∨ 1 < vel) → s.setStepFields index g sl note vel filt = s) ∧
    ((filt < 0 ∨ 1 < filt) → s.setStepFields index g sl note vel filt = s) ∧
    ((stepData.note < 0 ∨ 24 < stepData.note) → s.setStepObj index stepData = s) ∧
    ((stepData.velocity < 0 ∨ 1 < stepData.velocity) → s.setStepObj index stepData = s) ∧
    ((stepData.filter < 0 ∨ 1 < stepData.filter) → s.setStepObj index stepData = s) ∧
    (idx < s.stepLength → idx < s.state.steps.length →
      ((s.setStepNote idx noteIdx).state.steps.getD idx {}).note =
        ((noteIdx % 256 : Nat) : Int)) ∧
    (idx < s.stepLength → idx < s.state.steps.length →
      ((s.setStepVelocity idx velByte).state.steps.getD idx {}).velocity =
        ((velByte % 256 : Nat) : ℚ) / 127) ∧
    (idx < s.stepLength → idx < s.state.steps.length →
      ((s.setStepFiltFreq idx filtVal).state.steps.getD idx {}).filter = filtVal) := by
  refine ⟨?_, ?_, ?_, ?_, ?_, ?_, ?_, ?_, ?_⟩
  · intro h; unfold Sequencer.setStepFields; split_ifs <;> rfl
  · intro h; unfold Sequencer.setStepFields; split_ifs <;> rfl
  · intro h; unfold Sequencer.setStepFields; split_ifs <;> rfl
  · intro h; unfold Sequencer.setStepObj; split_ifs <;> rfl
  · intro h; unfold Sequencer.setStepObj; split_ifs <;> rfl
  · intro h; unfold Sequencer.setStepObj; split_ifs <;> rfl
  · intro h1 h2
    unfold Sequencer.setStepNote
    rw [if_neg (by omega), getD_set_self _ _ _ _ h2]
  · intro h1 h2
    unfold Sequencer.setStepVelocity
    rw [if_neg (by omega), getD_set_self _ _ _ _ h2]
  · intro h1 h2
    unfold Sequencer.setStepFiltFreq
    rw [if_neg (by omega), getD_set_self _ _ _ _ h2]

/-- Witness for C3 (amended): a rejected field-wise write and an accepted
out-of-range `setStepNote` write on concrete states. -/
theorem setStep_value_validation_witness :
    (Sequencer.initial.setStepFields 0 true false 30 (1/2) (1/2) = Sequencer.initial) ∧
    ((Sequencer.initial.setStepNote 0 30).state.steps.getD 0 {}).note =
      ((30 % 256 : Nat) : Int) ∧
    ((Sequencer.initial.setStepVelocity 0 200).state.steps.getD 0 {}).velocity =
      ((200 % 256 : Nat) : ℚ) / 127 ∧
    ((Sequencer.initial.setStepFiltFreq 0 (-(1/10))).state.steps.getD 0 {}).filter =
      -(1/10) :=
  ⟨(setStep_value_validation Sequencer.initial 0 true false 30 (1/2) (1/2) {} 0 30 200
      (-(1/10))).1 (Or.inr (by norm_num)),
   (setStep_value_validation Sequencer.initial 0 true false 30 (1/2) (1/2) {} 0 30 200
      (-(1/10))).2.2.2.2.2.2.1 (by decide) (by decide),
   (setStep_value_validation Sequencer.initial 0 true false 30 (1/2) (1/2) {} 0 30 200
      (-(1/10))).2.2.2.2.2.2.2.1 (by decide) (by decide),
   (setStep_value_validation Sequencer.initial 0 true false 30 (1/2) (1/2) {} 0 30 200
      (-(1/10))).2.2.2.2.2.2.2.2 (by decide) (by decide)⟩

/-! ### C9 — auto-record priority in `recordLiveParameters` -/

/-- The step under the playhead (the step `recordLiveParameters` auto-records
into when no step is selected). -/
def Sequencer.playheadStep (s : Sequencer) : Step :=
  s.state.steps.getD s.state.playhead {}

/-- C9: with `selectedStepForEdit = -1`, `recordLiveParameters` writes
nothing when the playhead step's gate is off; when the gate is on it writes
at most one of note/velocity/filter, chosen by priority
note > velocity > filter over the held buttons; with `distance = 225` and
only button 16 held it writes note `map(225,0,1400,0,24) = 3` and leaves
velocity and filter untouched. -/
theorem recordLive_no_selection_priority (s : Sequencer) (mm : Int) (b16 b17 b18 : Bool)
    (hph : s.state.playhead < s.state.steps.length) :
    (s.playheadStep.gate = false → s.recordLiveParameters mm b16 b17 b18 (-1) = s) ∧
    (s.playheadStep.gate = true → b16 = true →
      s.recordLiveParameters mm b16 b17 b18 (-1) = { s with state := { s.state with
        steps := s.state.steps.set s.state.playhead { s.playheadStep with
          note := constrainI (arduinoMap mm 0 1400 0 24) 0 24 } } }) ∧
    (s.playheadStep.gate = true → b16 = false → b17 = true →
      s.recordLiveParameters mm b16 b17 b18 (-1) = { s with state := { s.state with
        steps := s.state.steps.set s.state.playhead { s.playheadStep with
          velocity := ((constrainI (arduinoMap mm 0 1400 0 1000) 0 1000 : Int) : ℚ) / 1000 } } }) ∧
    (s.playheadStep.gate = true → b16 = false → b17 = false → b18 = true →
      s.recordLiveParameters mm b16 b17 b18 (-1) = { s with state := { s.state with
        steps := s.state.steps.set s.state.playhead { s.playheadStep with
          filter := ((constrainI (arduinoMap mm 0 1400 0 2000) 0 2000 : Int) : ℚ) } } }) ∧
    (s.playheadStep.gate = true → b16 = false → b17 = false → b18 = false →
      s.recordLiveParameters mm b16 b17 b18 (-1) = s) ∧
    (s.playheadStep.gate = true → b16 = true → mm = 225 →
      ((s.recordLiveParameters mm b16 b17 b18 (-1)).state.steps.getD s.state.playhead {}).note
          = 3 ∧
      ((s.recordLiveParameters mm b16 b17 b18 (-1)).state.steps.getD s.state.playhead {}).velocity
          = s.playheadStep.velocity ∧
      ((s.recordLiveParameters mm b16 b17 b18 (-1)).state.steps.getD s.state.playhead {}).filter
          = s.playheadStep.filter) := by
  have hsel : ¬((0 : Int) ≤ -1 ∧ (-1 : Int) < (s.stepLength : Int)) := by omega
  refine ⟨?_, ?_, ?_, ?_, ?_, ?_⟩
  · intro hg
    simp [Sequencer.recordLiveParameters, Sequencer.playheadStep, hsel] at hg ⊢
    simp [hg]
  · intro hg hb
    simp [Sequencer.playheadStep] at hg
    simp [Sequencer.recordLiveParameters, Sequencer.playheadStep, hsel, hg, hb]
  · intro hg h16 h17
    simp [Sequencer.playheadStep] at hg
    simp [Sequencer.recordLiveParameters, Sequencer.playheadStep, hsel, hg, h16, h17]
  · intro hg h16 h17 h18
    simp [Sequencer.playheadStep] at hg
    simp [Sequencer.recordLiveParameters, Sequencer.playheadStep, hsel, hg, h16, h17, h18]
  · intro hg h16 h17 h18
    simp [Sequencer.playheadStep] at hg
    simp [Sequencer.recordLiveParameters, Sequencer.playheadStep, hsel, hg, h16, h17, h18]
  · intro hg hb hmm
    subst hmm
    simp [Sequencer.playheadStep] at hg
    have htd : Int.tdiv 5400 1400 = 3 := by decide
    simp [Sequencer.recordLiveParameters, Sequencer.playheadStep, hsel, hg, hb,
      constrainI, arduinoMap, htd, List.getElem?_set_self hph]

/-- Witness for C9: the all-gated 16-step sequencer, distance 225, only
button 16 held, no step selected: the playhead step's note becomes 3 and
velocity/filter are unchanged. -/
theorem recordLive_no_selection_priority_witness :
    ((seqOn.recordLiveParameters 225 true false false (-1)).state.steps.getD
        seqOn.state.playhead {}).note = 3 ∧
    ((seqOn.recordLiveParameters 225 true false false (-1)).state.steps.getD
        seqOn.state.playhead {}).velocity = seqOn.playheadStep.velocity ∧
    ((seqOn.recordLiveParameters 225 true false false (-1)).state.steps.getD
        seqOn.state.playhead {}).filter = seqOn.playheadStep.filter :=
  (recordLive_no_selection_priority seqOn 225 true false false
      (by decide)).2.2.2.2.2 (by decide) rfl rfl

/-! ### The effect of `advanceStep` on a gated step -/

/-- Unfolding of `advanceStep` when the addressed step's gate is on: the
previous note (if any) is NoteOff'd, the step is resolved and dispatched,
and a new 24-tick note is started. -/
lemma advanceStep_gate_eq (scale : ScaleFn) (s : Sequencer) (k : Nat)
    (hgate : (s.state.steps.getD (k % s.stepLength) {}).gate = true) :
    s.advanceStep scale k =
      ({ s with
          state := { s.state with playhead := k % s.stepLength },
          lastNote := i8OfInt (MIDI_BASE_NOTE +
            scale 0 (scaleIndexOf (s.state.steps.getD (k % s.stepLength) {}).note)),
          currentNote := i8OfInt (MIDI_BASE_NOTE +
            scale 0 (scaleIndexOf (s.state.steps.getD (k % s.stepLength) {}).note)),
          noteDurationCounter := 24 },
        (if 0 ≤ s.currentNote then [IOEvent.noteOff (u8OfInt s.currentNote) 0 1] else []) ++
        [IOEvent.setNote1 (MIDI_BASE_NOTE +
            scale 0 (scaleIndexOf (s.state.steps.getD (k % s.stepLength) {}).note)),
         IOEvent.setVel1 (s.state.steps.getD (k % s.stepLength) {}).velocity,
         IOEvent.setFreq1 ((s.state.steps.getD (k % s.stepLength) {}).filter * 1),
         IOEvent.trigEnv,
         IOEvent.noteOn
           (u8OfInt (i8OfInt (MIDI_BASE_NOTE +
             scale 0 (scaleIndexOf (s.state.steps.getD (k % s.stepLength) {}).note))))
           (u8OfRat ((s.state.steps.getD (k % s.stepLength) {}).velocity * 127)) 1]) := by
  simp only [List.getD_eq_getElem?_getD, one_div] at hgate
  by_cases h : 0 ≤ s.currentNote <;>
    simp [Sequencer.advanceStep, Sequencer.handleNoteOff, Sequencer.startNote, i8OfInt,
      h, hgate]

/-! ### C5 — preview/playback correspondence of `playStepNow` -/

/-- Counterexample to C5: the `setFreq1` dispatch differs. On the all-gated
sequencer with filter 1, `playStepNow` sends `setFreq1(1·5000) = 5000`
while `advanceStep` sends `setFreq1(1·1) = 1` for the same step. -/
theorem playStepNow_setFreq1_mismatch :
    (seqOn.playStepNow (fun _ _ => 0) 0).2[2]? = some (IOEvent.setFreq1 5000) ∧
    (seqOn.advanceStep (fun _ _ => 0) 0).2[2]? = some (IOEvent.setFreq1 1) ∧
    (5000 : ℚ) ≠ 1 := by
  refine ⟨?_, ?_, by norm_num⟩
  · simp [Sequencer.playStepNow, seqOn, stepOn, List.getD_eq_getElem?_getD]
  · rw [advanceStep_gate_eq (fun _ _ => 0) seqOn 0 (by decide)]
    simp [seqOn, stepOn, List.getD_eq_getElem?_getD]

/-- C5 (amended): for an in-range step index, `playStepNow` leaves the whole
sequencer state (playhead, voice tracking, everything) unchanged and
dispatches the same `setNote1`/`setVel1`/`triggerEnvelope` resolution that
`advanceStep` dispatches for that step when gated, and neither sends any
MIDI beyond `advanceStep`'s NoteOff/NoteOn; but the `setFreq1` arguments
differ: `playStepNow` sends `filter * 5000` while `advanceStep` sends
`filter * 1`. -/
theorem playStepNow_preview_correspondence (scale : ScaleFn) (s : Sequencer) (idx : Nat)
    (hidx : idx < s.stepLength) :
    ((s.playStepNow scale idx).1 = s) ∧
    ((s.playStepNow scale idx).2 =
      [IOEvent.setNote1 (MIDI_BASE_NOTE +
          scale 0 (scaleIndexOf (s.state.steps.getD idx {}).note)),
       IOEvent.setVel1 (s.state.steps.getD idx {}).velocity,
       IOEvent.setFreq1 ((s.state.steps.getD idx {}).filter * 5000),
       IOEvent.trigEnv]) ∧
    ((s.state.steps.getD idx {}).gate = true →
      (s.advanceStep scale idx).2 =
        (if 0 ≤ s.currentNote then [IOEvent.noteOff (u8OfInt s.currentNote) 0 1] else []) ++
        [IOEvent.setNote1 (MIDI_BASE_NOTE +
            scale 0 (scaleIndexOf (s.state.steps.getD idx {}).note)),
         IOEvent.setVel1 (s.state.steps.getD idx {}).velocity,
         IOEvent.setFreq1 ((s.state.steps.getD idx {}).filter * 1),
         IOEvent.trigEnv,
         IOEvent.noteOn
           (u8OfInt (i8OfInt (MIDI_BASE_NOTE +
             scale 0 (scaleIndexOf (s.state.steps.getD idx {}).note))))
           (u8OfRat ((s.state.steps.getD idx {}).velocity * 127)) 1]) := by
  have hmod : idx % s.stepLength = idx := Nat.mod_eq_of_lt hidx
  refine ⟨?_, ?_, ?_⟩
  · simp [Sequencer.playStepNow, Nat.not_le.mpr hidx]
  · simp [Sequencer.playStepNow, Nat.not_le.mpr hidx]
  · intro hg
    rw [advanceStep_gate_eq scale s idx (by rwa [hmod])]
    simp [hmod]

/-- Witness for C5 (amended) on the all-gated sequencer at step 0. -/
theorem playStepNow_preview_correspondence_witness :
    ((seqOn.playStepNow (fun _ _ => 0) 0).1 = seqOn) ∧
    ((seqOn.advanceStep (fun _ _ => 0) 0).2 =
      (if 0 ≤ seqOn.currentNote then [IOEvent.noteOff (u8OfInt seqOn.currentNote) 0 1]
       else []) ++
      [IOEvent.setNote1 (MIDI_BASE_NOTE +
          (fun _ _ => (0 : Int)) 0 (scaleIndexOf (seqOn.state.steps.getD 0 {}).note)),
       IOEvent.setVel1 (seqOn.state.steps.getD 0 {}).velocity,
       IOEvent.setFreq1 ((seqOn.state.steps.getD 0 {}).filter * 1),
       IOEvent.trigEnv,
       IOEvent.noteOn
         (u8OfInt (i8OfInt (MIDI_BASE_NOTE +
           (fun _ _ => (0 : Int)) 0 (scaleIndexOf (seqOn.state.steps.getD 0 {}).note))))
         (u8OfRat ((seqOn.state.steps.getD 0 {}).velocity * 127)) 1]) :=
  ⟨(playStepNow_preview_correspondence (fun _ _ => 0) seqOn 0 (by decide)).1,
   (playStepNow_preview_correspondence (fun _ _ => 0) seqOn 0 (by decide)).2.2 (by decide)⟩

/-! ### C8 — scale-lookup index resolution in `advanceStep` -/

/-- A sequencer whose steps carry the out-of-table note value 40. -/
def stepNote40 : Step :=
  { gate := true, slide := false, note := 40, velocity := 1, filter := 1 }

def seqNote40 : Sequencer :=
  { state := { steps := List.replicate 16 stepNote40, playhead := 0, running := true } }

/-- Counterexample to C8: with the identity scale table, a stored note of 40
resolves through index 0 (the code substitutes 0 for any out-of-table
note), producing `setNote1 36`, whereas the claimed formula
`baseNote + scaleTable[0][clamp(note, 0, scaleTableSize-1)]` yields 75. -/
theorem scale_lookup_not_clamped :
    (seqNote40.advanceStep (fun _ j => j) 0).2[0]? = some (IOEvent.setNote1 36) ∧
    MIDI_BASE_NOTE +
      (fun _ j => j : ScaleFn) 0
        (constrainI ((seqNote40.state.steps.getD 0 {}).note) 0
          ((SCALE_ARRAY_SIZE : Int) - 1)) = 75 ∧
    (36 : Int) ≠ 75 := by
  refine ⟨?_, by decide, by decide⟩
  rw [advanceStep_gate_eq (fun _ j => j) seqNote40 0 (by decide)]
  simp [seqNote40, stepNote40, List.getD_eq_getElem?_getD, scaleIndexOf,
    MIDI_BASE_NOTE, SCALE_ARRAY_SIZE]

/-- C8 (amended): for a gated step, `advanceStep` resolves the MIDI note as
`MIDI_BASE_NOTE + scaleTable[0][idx]` where `idx = note` for stored notes in
`[0, scaleTableSize)` and `idx = 0` — a substitution, not a clamp to
`scaleTableSize - 1` — for any other stored note; the index used always
lies in `[0, scaleTableSize)`, so out-of-bounds access never occurs. -/
theorem advanceStep_scale_index (scale : ScaleFn) (s : Sequencer) (k : Nat) :
    scaleIndexOf (s.state.steps.getD (k % s.stepLength) {}).note < SCALE_ARRAY_SIZE ∧
    (0 ≤ (s.state.steps.getD (k % s.stepLength) {}).note →
      (s.state.steps.getD (k % s.stepLength) {}).note < (SCALE_ARRAY_SIZE : Int) →
      (scaleIndexOf (s.state.steps.getD (k % s.stepLength) {}).note : Int) =
        (s.state.steps.getD (k % s.stepLength) {}).note) ∧
    (((s.state.steps.getD (k % s.stepLength) {}).note < 0 ∨
        (SCALE_ARRAY_SIZE : Int) ≤ (s.state.steps.getD (k % s.stepLength) {}).note) →
      scaleIndexOf (s.state.steps.getD (k % s.stepLength) {}).note = 0) ∧
    ((s.state.steps.getD (k % s.stepLength) {}).gate = true →
      (s.advanceStep scale k).2 =
        (if 0 ≤ s.currentNote then [IOEvent.noteOff (u8OfInt s.currentNote) 0 1] else []) ++
        [IOEvent.setNote1 (MIDI_BASE_NOTE +
            scale 0 (scaleIndexOf (s.state.steps.getD (k % s.stepLength) {}).note)),
         IOEvent.setVel1 (s.state.steps.getD (k % s.stepLength) {}).velocity,
         IOEvent.setFreq1 ((s.state.steps.getD (k % s.stepLength) {}).filter * 1),
         IOEvent.trigEnv,
         IOEvent.noteOn
           (u8OfInt (i8OfInt (MIDI_BASE_NOTE +
             scale 0 (scaleIndexOf (s.state.steps.getD (k % s.stepLength) {}).note))))
           (u8OfRat ((s.state.steps.getD (k % s.stepLength) {}).velocity * 127)) 1]) := by
  refine ⟨?_, ?_, ?_, fun hg => advanceStep_gate_eq scale s k hg ▸ rfl⟩
  · unfold scaleIndexOf
    split_ifs with h
    · omega
    · simp [SCALE_ARRAY_SIZE]
  · intro h1 h2
    unfold scaleIndexOf
    rw [if_pos ⟨h1, h2⟩, Int.toNat_of_nonneg h1]
  · intro h
    unfold scaleIndexOf
    rw [if_neg (by omega)]

/-- Witness for C8 (amended) on the note-40 sequencer with the identity
scale table: the substituted index is 0 and the dispatched trace matches. -/
theorem advanceStep_scale_index_witness :
    scaleIndexOf (seqNote40.state.steps.getD (0 % seqNote40.stepLength) {}).note = 0 ∧
    (seqNote40.advanceStep (fun _ j => j) 0).2 =
      (if 0 ≤ seqNote40.currentNote
       then [IOEvent.noteOff (u8OfInt seqNote40.currentNote) 0 1] else []) ++
      [IOEvent.setNote1 (MIDI_BASE_NOTE +
          (fun _ j => j : ScaleFn) 0
            (scaleIndexOf (seqNote40.state.steps.getD (0 % seqNote40.stepLength) {}).note)),
       IOEvent.setVel1 (seqNote40.state.steps.getD (0 % seqNote40.stepLength) {}).velocity,
       IOEvent.setFreq1 ((seqNote40.state.steps.getD (0 % seqNote40.stepLength) {}).filter * 1),
       IOEvent.trigEnv,
       IOEvent.noteOn
         (u8OfInt (i8OfInt (MIDI_BASE_NOTE +
           (fun _ j => j : ScaleFn) 0
             (scaleIndexOf (seqNote40.state.steps.getD (0 % seqNote40.stepLength) {}).note))))
         (u8OfRat ((seqNote40.state.steps.getD (0 % seqNote40.stepLength) {}).velocity * 127))
         1] :=
  ⟨(advanceStep_scale_index (fun _ j => j) seqNote40 0).2.2.1 (Or.inr (by decide)),
   (advanceStep_scale_index (fun _ j => j) seqNote40 0).2.2.2 (by decide)⟩

/-! ### C2 — fixed 24-tick note duration -/

/-- `n` consecutive `tickNoteDuration` calls, with the emitted capability
calls concatenated in order. -/
def Sequencer.tickRun (s : Sequencer) : Nat → Sequencer × List IOEvent
  | 0 => (s, [])
  | n + 1 =>
      let r := s.tickRun n
      let r2 := r.1.tickNoteDuration
      (r2.1, r.2 ++ r2.2)

/-- While the countdown has not reached zero, `tickNoteDuration` only
decrements the counter and emits nothing. -/
lemma tickRun_counts_down (s : Sequencer) (hcur : 0 ≤ s.currentNote) :
    ∀ n, n < s.noteDurationCounter →
      s.tickRun n = ({ s with noteDurationCounter := s.noteDurationCounter - n }, []) := by
  intro n
  induction n with
  | zero => intro _; simp [Sequencer.tickRun]
  | succ n ih =>
      intro h
      have hn : n < s.noteDurationCounter := Nat.lt_of_succ_lt h
      have h1 : 0 < s.noteDurationCounter - n := by omega
      have h2 : ¬(s.noteDurationCounter - n - 1 = 0) := by omega
      rw [Sequencer.tickRun, ih hn]
      simp [Sequencer.tickNoteDuration, hcur, h1, h2, Nat.sub_sub]
      omega

/-- On the tick that takes the counter from 1 to 0, `tickNoteDuration`
sends NoteOff for the active note, releases the envelope and clears the
voice state. -/
lemma tickNoteDuration_fires (s : Sequencer) (hcur : 0 ≤ s.currentNote)
    (hc : s.noteDurationCounter = 1) :
    s.tickNoteDuration = ({ s with currentNote := -1, noteDurationCounter := 0 },
      [IOEvent.noteOff (u8OfInt s.currentNote) 0 1, IOEvent.relEnv]) := by
  simp [Sequencer.tickNoteDuration, Sequencer.handleNoteOff, hcur, hc]

/-- `int8_t` round trip is the identity on `[0, 128)`. -/
lemma i8OfInt_of_range (x : Int) (h0 : 0 ≤ x) (h1 : x < 128) : i8OfInt x = x := by
  unfold i8OfInt i8OfU8 u8OfInt
  split_ifs <;> omega

/-- C2: a gated step started by `advanceStep` carries a fixed duration of
24 ticks, independent of any BPM notion: the dispatch ends with the
NoteOn, the first 23 `tickNoteDuration` calls only decrement the counter
and emit nothing, and the 24th sends NoteOff for that note and releases
the envelope.  (`midi` names the resolved MIDI note, assumed to fit the
`int8_t` voice field as every real scale table makes it.) -/
theorem advanceStep_fixed_24_tick_duration (scale : ScaleFn) (s : Sequencer) (k : Nat)
    (midi : Int) (s1 : Sequencer)
    (hgate : (s.state.steps.getD (k % s.stepLength) {}).gate = true)
    (hmidi : midi = MIDI_BASE_NOTE +
      scale 0 (scaleIndexOf (s.state.steps.getD (k % s.stepLength) {}).note))
    (h0 : 0 ≤ midi) (h1 : midi < 128)
    (hs1 : s1 = (s.advanceStep scale k).1) :
    s1.noteDurationCounter = 24 ∧
    s1.currentNote = midi ∧
    (s.advanceStep scale k).2.getLast? =
      some (IOEvent.noteOn (u8OfInt midi)
        (u8OfRat ((s.state.steps.getD (k % s.stepLength) {}).velocity * 127)) 1) ∧
    (∀ i, i ≤ 23 → s1.tickRun i = ({ s1 with noteDurationCounter := 24 - i }, [])) ∧
    s1.tickRun 24 = ({ s1 with currentNote := -1, noteDurationCounter := 0 },
      [IOEvent.noteOff (u8OfInt midi) 0 1, IOEvent.relEnv]) := by
  have hadv := advanceStep_gate_eq scale s k hgate
  have hcn : s1.currentNote = midi := by
    rw [hs1, hadv, ← hmidi]
    exact i8OfInt_of_range midi h0 h1
  have hcd : s1.noteDurationCounter = 24 := by rw [hs1, hadv]
  have hcur : 0 ≤ s1.currentNote := by rw [hcn]; exact h0
  refine ⟨hcd, hcn, ?_, ?_, ?_⟩
  · rw [hadv, ← hmidi]
    have : u8OfInt (i8OfInt midi) = u8OfInt midi := by rw [i8OfInt_of_range midi h0 h1]
    simp [this]
  · intro i hi
    rw [tickRun_counts_down s1 hcur i (by omega), hcd]
  · rw [show (24 : Nat) = 23 + 1 from rfl, Sequencer.tickRun,
      tickRun_counts_down s1 hcur 23 (by omega), hcd]
    rw [tickNoteDuration_fires _ (by simpa using hcur) (by simp)]
    simp [hcn]

/-- Witness for C2 on the all-gated sequencer with the zero scale table. -/
theorem advanceStep_fixed_24_tick_duration_witness :
    ((seqOn.advanceStep (fun _ _ => 0) 0).1.noteDurationCounter = 24) ∧
    ((seqOn.advanceStep (fun _ _ => 0) 0).1.currentNote = 36) ∧
    ((seqOn.advanceStep (fun _ _ => 0) 0).2.getLast? =
      some (IOEvent.noteOn (u8OfInt 36)
        (u8OfRat ((seqOn.state.steps.getD (0 % seqOn.stepLength) {}).velocity * 127)) 1)) ∧
    (∀ i, i ≤ 23 →
      (seqOn.advanceStep (fun _ _ => 0) 0).1.tickRun i =
        ({ (seqOn.advanceStep (fun _ _ => 0) 0).1 with noteDurationCounter := 24 - i }, [])) ∧
    (seqOn.advanceStep (fun _ _ => 0) 0).1.tickRun 24 =
      ({ (seqOn.advanceStep (fun _ _ => 0) 0).1 with
          currentNote := -1, noteDurationCounter := 0 },
        [IOEvent.noteOff (u8OfInt 36) 0 1, IOEvent.relEnv]) :=
  advanceStep_fixed_24_tick_duration (fun _ _ => 0) seqOn 0 36
    ((seqOn.advanceStep (fun _ _ => 0) 0).1)
    (by decide) (by decide) (by decide) (by decide) rfl

/-! ### C1 — monophonic voice discipline -/

/-- The two operations the clock path performs on the sequencer: a step
boundary (`advanceStep k`) or a tick (`tickNoteDuration`). -/
inductive SeqOp where
  | advance (k : Nat)
  | tick
deriving DecidableEq

/-- Apply one clock-path operation. -/
def Sequencer.applyOp (scale : ScaleFn) (s : Sequencer) : SeqOp → Sequencer × List IOEvent
  | .advance k => s.advanceStep scale k
  | .tick => s.tickNoteDuration

/-- Run a sequence of clock-path operations, concatenating the capability
calls in order. -/
def Sequencer.runOps (scale : ScaleFn) (s : Sequencer) :
    List SeqOp → Sequencer × List IOEvent
  | [] => (s, [])
  | op :: rest =>
      let r := Sequencer.applyOp scale s op
      let r2 := r.1.runOps scale rest
      (r2.1, r.2 ++ r2.2)

/-- The note the voice-tracking state says is sounding (`currentNote ≥ 0`). -/
def Sequencer.activeNote (s : Sequencer) : Option Nat :=
  if 0 ≤ s.currentNote then some s.currentNote.toNat else none

/-- Monophony checker over a capability-call trace: starting from an
assumed outstanding note, `monoTrace` returns the outstanding note after
the trace, or `none`-failure (as `Option.none`) if some `sendNoteOn`
arrives while a note is outstanding or some `sendNoteOff` does not match
the outstanding note.  `monoTrace a tr = some a2` says the trace is
strictly alternating (at most one NoteOn outstanding at every point),
every NoteOff names the outstanding note, and `a2` is outstanding at the
end. -/
def monoTrace : Option Nat → List IOEvent → Option (Option Nat)
  | a, [] => some a
  | a, .noteOn n _ _ :: es => if a = none then monoTrace (some n) es else none
  | a, .noteOff n _ _ :: es => if a = some n then monoTrace none es else none
  | a, .trigEnv :: es => monoTrace a es
  | a, .relEnv :: es => monoTrace a es
  | a, .setNote1 _ :: es => monoTrace a es
  | a, .setVel1 _ :: es => monoTrace a es
  | a, .setFreq1 _ :: es => monoTrace a es

/-- The scale capability keeps resolved MIDI notes inside the `uint8_t`/
`int8_t`-safe range `[0, 128)` for every index the sequencer can use. -/
def scaleMidiInRange (scale : ScaleFn) : Prop :=
  ∀ j : Int, 0 ≤ j → j < (SCALE_ARRAY_SIZE : Int) →
    0 ≤ MIDI_BASE_NOTE + scale 0 j ∧ MIDI_BASE_NOTE + scale 0 j < 128

lemma scaleIndexOf_lt (x : Int) : scaleIndexOf x < SCALE_ARRAY_SIZE := by
  unfold scaleIndexOf
  split_ifs with h
  · omega
  · decide

lemma u8OfInt_of_range (x : Int) (h0 : 0 ≤ x) (h1 : x < 128) : u8OfInt x = x.toNat := by
  unfold u8OfInt
  omega

lemma monoTrace_append (a : Option Nat) (t1 t2 : List IOEvent) :
    monoTrace a (t1 ++ t2) = (monoTrace a t1).bind fun a2 => monoTrace a2 t2 := by
  induction t1 generalizing a with
  | nil => simp [monoTrace]
  | cons e rest ih =>
      cases e <;> simp only [List.cons_append, monoTrace] <;>
        first
          | exact ih a
          | (split_ifs <;> simp [ih])

/-- One `advanceStep` preserves the monophony invariant: its trace is
alternating from the current voice state and ends outstanding exactly what
the new voice state says. -/
lemma advanceStep_mono (scale : ScaleFn) (s : Sequencer) (k : Nat)
    (h1 : -1 ≤ s.currentNote) (h2 : s.currentNote < 128)
    (hsc : scaleMidiInRange scale) :
    monoTrace s.activeNote (s.advanceStep scale k).2 =
      some ((s.advanceStep scale k).1.activeNote) ∧
    -1 ≤ (s.advanceStep scale k).1.currentNote ∧
    (s.advanceStep scale k).1.currentNote < 128 := by
  by_cases hg : (s.state.steps.getD (k % s.stepLength) {}).gate = true
  · rw [advanceStep_gate_eq scale s k hg]
    set cur := s.state.steps.getD (k % s.stepLength) {}
    set m := MIDI_BASE_NOTE + scale 0 (scaleIndexOf cur.note) with hmdef
    obtain ⟨hm0, hm1⟩ := hsc (scaleIndexOf cur.note) (Int.ofNat_nonneg _)
      (by exact_mod_cast scaleIndexOf_lt _)
    rw [← hmdef] at hm0 hm1
    have e1 : i8OfInt m = m := i8OfInt_of_range _ hm0 hm1
    have e2 : u8OfInt m = m.toNat := u8OfInt_of_range _ hm0 hm1
    by_cases hcur : 0 ≤ s.currentNote
    · have e3 : u8OfInt s.currentNote = s.currentNote.toNat := u8OfInt_of_range _ hcur h2
      simp [monoTrace, Sequencer.activeNote, hcur, e1, e2, e3, hm0, hm1]
      omega
    · simp [monoTrace, Sequencer.activeNote, hcur, e1, e2, hm0, hm1]
      omega
  · simp only [List.getD_eq_getElem?_getD, one_div] at hg
    by_cases hcur : 0 ≤ s.currentNote
    · have e3 : u8OfInt s.currentNote = s.currentNote.toNat := u8OfInt_of_range _ hcur h2
      simp [Sequencer.advanceStep, Sequencer.handleNoteOff, hg, hcur, monoTrace,
        Sequencer.activeNote, e3]
    · simp [Sequencer.advanceStep, Sequencer.handleNoteOff, hg, hcur, monoTrace,
        Sequencer.activeNote, h1, h2]

/-- One `tickNoteDuration` preserves the monophony invariant. -/
lemma tickNoteDuration_mono (s : Sequencer)
    (h1 : -1 ≤ s.currentNote) (h2 : s.currentNote < 128) :
    monoTrace s.activeNote s.tickNoteDuration.2 =
      some (s.tickNoteDuration.1.activeNote) ∧
    -1 ≤ s.tickNoteDuration.1.currentNote ∧
    s.tickNoteDuration.1.currentNote < 128 := by
  by_cases hc : 0 ≤ s.currentNote ∧ 0 < s.noteDurationCounter
  · by_cases hz : s.noteDurationCounter - 1 = 0
    · have e3 : u8OfInt s.currentNote = s.currentNote.toNat := u8OfInt_of_range _ hc.1 h2
      simp [Sequencer.tickNoteDuration, Sequencer.handleNoteOff, hc, hz, monoTrace,
        Sequencer.activeNote, hc.1, e3]
    · simp [Sequencer.tickNoteDuration, hc, hz, monoTrace, Sequencer.activeNote, hc.1, h1, h2]
  · simp [Sequencer.tickNoteDuration, hc, monoTrace, Sequencer.activeNote, h1, h2]

/-- C1: over every sequence of `advanceStep` and `tickNoteDuration` calls
(from any voice state whose `int8_t` field is well-formed, against any
scale capability that keeps MIDI notes in `[0,128)`), the emitted trace is
strictly alternating — at most one NoteOn outstanding at any point, each
`sendNoteOff` naming the outstanding note, so a new NoteOn is always
preceded by the NoteOff of the previous note even for identical pitches —
and at the end a NoteOn is outstanding if and only if `currentNote` is
set, with the same pitch. -/
theorem sequencer_monophony (scale : ScaleFn) (ops : List SeqOp) (s : Sequencer)
    (h1 : -1 ≤ s.currentNote) (h2 : s.currentNote < 128)
    (hsc : scaleMidiInRange scale) :
    monoTrace s.activeNote (s.runOps scale ops).2 =
      some ((s.runOps scale ops).1.activeNote) := by
  induction ops generalizing s with
  | nil => simp [Sequencer.runOps, monoTrace]
  | cons op rest ih =>
      have hstep : monoTrace s.activeNote (s.applyOp scale op).2 =
          some ((s.applyOp scale op).1.activeNote) ∧
          -1 ≤ (s.applyOp scale op).1.currentNote ∧
          (s.applyOp scale op).1.currentNote < 128 := by
        cases op with
        | advance k => exact advanceStep_mono scale s k h1 h2 hsc
        | tick => exact tickNoteDuration_mono s h1 h2
      rw [Sequencer.runOps]
      simp only [monoTrace_append, hstep.1, Option.bind_some]
      exact ih _ hstep.2.1 hstep.2.2

/-- Witness for C1: a concrete run (step, tick, repeated step, rest step)
on the all-gated sequencer with the zero scale table. -/
theorem sequencer_monophony_witness :
    monoTrace seqOn.activeNote
        (seqOn.runOps (fun _ _ => 0) [.advance 0, .tick, .advance 0, .advance 1]).2 =
      some ((seqOn.runOps (fun _ _ => 0) [.advance 0, .tick, .advance 0, .advance 1]).1.activeNote) :=
  sequencer_monophony (fun _ _ => 0) [.advance 0, .tick, .advance 0, .advance 1] seqOn
    (by decide) (by decide) (fun _ _ _ => by norm_num [MIDI_BASE_NOTE])

/-! ### C4 — step range invariant -/

/-- The spec's data-model range invariant for one step. -/
def StepInRange (st : Step) : Prop :=
  0 ≤ st.note ∧ st.note ≤ 24 ∧ 0 ≤ st.velocity ∧ st.velocity ≤ 1 ∧
  0 ≤ st.filter ∧ st.filter ≤ 1

/-- The spec's range invariant over a sequencer's whole step array. -/
def StepsInRange (s : Sequencer) : Prop := ∀ st ∈ s.state.steps, StepInRange st

lemma getD_mem_of_lt (l : List α) (i : Nat) (d : α) (h : i < l.length) :
    l.getD i d ∈ l := by
  rw [List.getD_eq_getElem?_getD, List.getElem?_eq_getElem h]
  exact List.getElem_mem h

/-- The step array produced by `init`/`initializeSteps`, entry-wise. -/
lemma init_steps_getD (rand : Nat → Int) (s : Sequencer) (i : Nat) (hi : i < 16) :
    (s.init rand).state.steps.getD i {} =
      if i < s.stepLength then
        { gate := true, slide := false, note := 0,
          velocity := 100/127, filter := ((rand i : Int) : ℚ) }
      else ({} : Step) := by
  simp [Sequencer.init, Sequencer.initializeSteps, SEQUENCER_NUM_STEPS,
    List.getD_eq_getElem?_getD, List.getElem?_range hi]

/-- Counterexample to C4: immediately after `init` (with `random(200,1000)`
returning its minimum 200), step 0's filter is 200, far outside `[0,1]` —
the initializer stores a raw 200–1000 Hz value into the normalized field. -/
theorem init_filter_breaks_unit_range :
    ((Sequencer.initial.init (fun _ => 200)).state.steps.getD 0 {}).filter = 200 ∧
    ¬ ((Sequencer.initial.init (fun _ => 200)).state.steps.getD 0 {}).filter ≤ 1 := by
  rw [init_steps_getD (fun _ => 200) Sequencer.initial 0 (by decide)]
  norm_num [Sequencer.initial]

/-- C4 (amended): after `init` (and `reset`, which the spec defines to
behave as `init`), every step satisfies note ∈ [0,24] and velocity ∈ [0,1],
but each step within `stepLength` has filter = the raw `random(200,1000)`
value, violating filter ∈ [0,1]; `toggleStep` and both `setStep` overloads
preserve the full range invariant, while the single-field setters and
`recordLiveParameters` are not range-preserving in general. -/
theorem step_range_invariant (s : Sequencer) (rand : Nat → Int)
    (hrand : ∀ i, 200 ≤ rand i ∧ rand i < 1000)
    (i stepIdx : Nat) (index : Int) (g sl : Bool) (note : Int) (vel filt : ℚ)
    (stepData : Step) :
    (∀ st ∈ (s.init rand).state.steps,
      0 ≤ st.note ∧ st.note ≤ 24 ∧ 0 ≤ st.velocity ∧ st.velocity ≤ 1) ∧
    (s.reset rand = s.init rand) ∧
    (i < 16 → i < s.stepLength →
      200 ≤ ((s.init rand).state.steps.getD i {}).filter ∧
      ¬ ((s.init rand).state.steps.getD i {}).filter ≤ 1) ∧
    (StepsInRange s → StepsInRange (s.toggleStep stepIdx)) ∧
    (StepsInRange s → StepsInRange (s.setStepFields index g sl note vel filt)) ∧
    (StepsInRange s → StepsInRange (s.setStepObj index stepData)) := by
  refine ⟨?_, rfl, ?_, ?_, ?_, ?_⟩
  · intro st hmem
    simp [Sequencer.init, Sequencer.initializeSteps, List.mem_map] at hmem
    obtain ⟨j, _, hj⟩ := hmem
    by_cases hjl : j < s.stepLength
    · rw [if_pos hjl] at hj
      subst hj
      refine ⟨le_refl 0, by norm_num, by norm_num, by norm_num⟩
    · rw [if_neg hjl] at hj
      subst hj
      refine ⟨le_refl 0, by norm_num, by norm_num, by norm_num⟩
  · intro h16 hlen
    rw [init_steps_getD rand s i h16, if_pos hlen]
    constructor
    · show (200 : ℚ) ≤ ((rand i : Int) : ℚ)
      exact_mod_cast (hrand i).1
    · show ¬ ((rand i : Int) : ℚ) ≤ 1
      intro hc
      have hc2 : rand i ≤ 1 := by exact_mod_cast hc
      have := (hrand i).1
      omega
  · intro hS st hmem
    by_cases hidx : s.stepLength ≤ stepIdx
    · simp [Sequencer.toggleStep, hidx] at hmem
      exact hS st hmem
    · simp [Sequencer.toggleStep, hidx] at hmem
      by_cases hlen : stepIdx < s.state.steps.length
      · rcases List.mem_or_eq_of_mem_set hmem with h | h
        · exact hS st h
        · subst h
          have hc := hS _ (getD_mem_of_lt s.state.steps stepIdx {} hlen)
          unfold StepInRange at hc ⊢
          dsimp only
          simp only [List.getD_eq_getElem?_getD, one_div] at hc
          exact hc
      · rw [List.set_eq_of_length_le (by omega)] at hmem
        exact hS st hmem
  · intro hS st hmem
    unfold Sequencer.setStepFields at hmem
    by_cases hI : index < 0 ∨ (s.stepLength : Int) ≤ index
    · rw [if_pos hI] at hmem; exact hS st hmem
    · rw [if_neg hI] at hmem
      by_cases hN : note < 0 ∨ 24 < note
      · rw [if_pos hN] at hmem; exact hS st hmem
      · rw [if_neg hN] at hmem
        by_cases hV : vel < 0 ∨ 1 < vel
        · rw [if_pos hV] at hmem; exact hS st hmem
        · rw [if_neg hV] at hmem
          by_cases hF : filt < 0 ∨ 1 < filt
          · rw [if_pos hF] at hmem; exact hS st hmem
          · rw [if_neg hF] at hmem
            dsimp only at hmem
            by_cases hlen : index.toNat < s.state.steps.length
            · rcases List.mem_or_eq_of_mem_set hmem with h | h
              · exact hS st h
              · subst h
                simp only [not_or, not_lt] at hN hV hF
                exact ⟨hN.1, hN.2, hV.1, hV.2, hF.1, hF.2⟩
            · rw [List.set_eq_of_length_le (by omega)] at hmem
              exact hS st hmem
  · intro hS st hmem
    unfold Sequencer.setStepObj at hmem
    by_cases hI : index < 0 ∨ (s.stepLength : Int) ≤ index
    · rw [if_pos hI] at hmem; exact hS st hmem
    · rw [if_neg hI] at hmem
      by_cases hN : stepData.note < 0 ∨ 24 < stepData.note
      · rw [if_pos hN] at hmem; exact hS st hmem
      · rw [if_neg hN] at hmem
        by_cases hV : stepData.velocity < 0 ∨ 1 < stepData.velocity
        · rw [if_pos hV] at hmem; exact hS st hmem
        · rw [if_neg hV] at hmem
          by_cases hF : stepData.filter < 0 ∨ 1 < stepData.filter
          · rw [if_pos hF] at hmem; exact hS st hmem
          · rw [if_neg hF] at hmem
            dsimp only at hmem
            by_cases hlen : index.toNat < s.state.steps.length
            · rcases List.mem_or_eq_of_mem_set hmem with h | h
              · exact hS st h
              · subst h
                simp only [not_or, not_lt] at hN hV hF
                exact ⟨hN.1, hN.2, hV.1, hV.2, hF.1, hF.2⟩
            · rw [List.set_eq_of_length_le (by omega)] at hmem
              exact hS st hmem

/-- Witness for C4 (amended) at a concrete `random` stream and indices. -/
theorem step_range_invariant_witness :
    (∀ st ∈ (Sequencer.initial.init (fun _ => 500)).state.steps,
      0 ≤ st.note ∧ st.note ≤ 24 ∧ 0 ≤ st.velocity ∧ st.velocity ≤ 1) ∧
    (200 ≤ ((Sequencer.initial.init (fun _ => 500)).state.steps.getD 2 {}).filter ∧
      ¬ ((Sequencer.initial.init (fun _ => 500)).state.steps.getD 2 {}).filter ≤ 1) ∧
    (StepsInRange seqOn → StepsInRange (seqOn.toggleStep 5)) :=
  ⟨(step_range_invariant Sequencer.initial (fun _ => 500)
      (fun _ => ⟨by norm_num, by norm_num⟩) 2 5 0 true false 0 0 0 {}).1,
   (step_range_invariant Sequencer.initial (fun _ => 500)
      (fun _ => ⟨by norm_num, by norm_num⟩) 2 5 0 true false 0 0 0 {}).2.2.1
      (by decide) (by decide),
   (step_range_invariant seqOn (fun _ => 500)
      (fun _ => ⟨by norm_num, by norm_num⟩) 2 5 0 true false 0 0 0 {}).2.2.2.1⟩

/-! ### C7 — matrix AND-gating and single edge dispatch -/

lemma updateLoop_length (tb : Nat) (idxs : List Nat) (st : List Bool) :
    (updateLoop tb idxs st).1.length = st.length := by
  induction idxs generalizing st with
  | nil => rfl
  | cons i rest ih =>
      unfold updateLoop
      by_cases hc : scanMatrixButton (matrixButtons i) tb ≠ st.getD i false
      · rw [if_pos hc]
        simp only [ih, List.length_set]
      · rw [if_neg hc, ih]

/-- After one pass, the debounced state of an index that was processed (or
already agreed with the scan) equals the AND-derived scan value. -/
lemma updateLoop_getD (tb : Nat) (idxs : List Nat) (st : List Bool) (j : Nat)
    (hj : j < st.length)
    (h : j ∈ idxs ∨ st.getD j false = scanMatrixButton (matrixButtons j) tb) :
    (updateLoop tb idxs st).1.getD j false = scanMatrixButton (matrixButtons j) tb := by
  induction idxs generalizing st with
  | nil =>
      rcases h with h | h
      · exact absurd h (List.not_mem_nil _)
      · exact h
  | cons i rest ih =>
      unfold updateLoop
      by_cases hc : scanMatrixButton (matrixButtons i) tb ≠ st.getD i false
      · rw [if_pos hc]
        show (updateLoop tb rest (st.set i (scanMatrixButton (matrixButtons i) tb))).1.getD
            j false = scanMatrixButton (matrixButtons j) tb
        apply ih
        · simpa [List.length_set] using hj
        · by_cases hij : j = i
          · subst hij
            exact Or.inr (getD_set_self st j _ false hj)
          · rcases h with h | h
            · rcases List.mem_cons.mp h with h' | h'
              · exact absurd h' hij
              · exact Or.inl h'
            · refine Or.inr ?_
              rw [getD_set_ne st i j _ false (fun e => hij e.symm)]
              exact h
      · rw [if_neg hc]
        apply ih st hj
        by_cases hij : j = i
        · subst hij
          push_neg at hc
          exact Or.inr hc.symm
        · rcases h with h | h
          · rcases List.mem_cons.mp h with h' | h'
            · exact absurd h' hij
            · exact Or.inl h'
          · exact Or.inr h

/-- A button whose derived state agrees with its stored state generates no
callback of any kind during a pass. -/
lemma updateLoop_no_event_of_unchanged (tb : Nat) (idxs : List Nat) (st : List Bool)
    (j : Nat) (h : scanMatrixButton (matrixButtons j) tb = st.getD j false) :
    ∀ e ∈ (updateLoop tb idxs st).2,
      e ≠ MatrixEvent.rising j ∧ e ≠ MatrixEvent.pressed j ∧ e ≠ MatrixEvent.released j := by
  induction idxs generalizing st with
  | nil => intro e he; simp [updateLoop] at he
  | cons i rest ih =>
      intro e he
      unfold updateLoop at he
      by_cases hc : scanMatrixButton (matrixButtons i) tb ≠ st.getD i false
      · rw [if_pos hc] at he
        have hij : i ≠ j := fun hij => hc (by rw [hij]; exact h)
        rcases List.mem_append.mp he with he' | he'
        · have hei : e = MatrixEvent.rising i ∨ e = MatrixEvent.pressed i ∨
              e = MatrixEvent.released i := by
            rcases List.mem_append.mp he' with h1 | h1
            · split_ifs at h1 <;> simp_all
            · split_ifs at h1 <;> simp_all
          rcases hei with rfl | rfl | rfl <;>
            exact ⟨by simp [hij], by simp [hij], by simp [hij]⟩
        · exact ih (st.set i (scanMatrixButton (matrixButtons i) tb))
            (by rw [getD_set_ne st i j _ false hij]; exact h) e he'
      · rw [if_neg hc] at he
        exact ih st h e he

/-- A pass over indices that all agree with their stored state does nothing
and emits nothing. -/
lemma updateLoop_eq_of_all_unchanged (tb : Nat) (idxs : List Nat) (st : List Bool)
    (h : ∀ j ∈ idxs, scanMatrixButton (matrixButtons j) tb = st.getD j false) :
    updateLoop tb idxs st = (st, []) := by
  induction idxs with
  | nil => rfl
  | cons i rest ih =>
      have hi := h i (List.mem_cons_self _ _)
      simp only [updateLoop]
      rw [if_neg (not_ne_iff.mpr hi)]
      exact ih (fun j hj => h j (List.mem_cons_of_mem _ hj))

/-- If exactly one processed index disagrees with its stored state — a
false→true rise at `b` — the pass emits the rising-edge callback for `b`
first, then the `Pressed` event, and nothing else. -/
lemma updateLoop_single_rise (tb : Nat) (idxs : List Nat) (st : List Bool) (b : Nat)
    (hnodup : idxs.Nodup) (hb : b ∈ idxs) (hblen : b < st.length)
    (hoth : ∀ j ∈ idxs, j ≠ b → scanMatrixButton (matrixButtons j) tb = st.getD j false)
    (hbchg : scanMatrixButton (matrixButtons b) tb = true)
    (hbprev : st.getD b false = false) :
    (updateLoop tb idxs st).2 = [MatrixEvent.rising b, MatrixEvent.pressed b] := by
  induction idxs generalizing st with
  | nil => exact absurd hb (List.not_mem_nil _)
  | cons i rest ih =>
      rcases List.nodup_cons.mp hnodup with ⟨hinotin, hndrest⟩
      by_cases hib : i = b
      · subst hib
        have hchg : scanMatrixButton (matrixButtons i) tb ≠ st.getD i false := by
          rw [hbchg, hbprev]; simp
        have hrest : ∀ j ∈ rest, scanMatrixButton (matrixButtons j) tb =
            (st.set i (scanMatrixButton (matrixButtons i) tb)).getD j false := by
          intro j hj
          have hji : j ≠ i := fun e => hinotin (e ▸ hj)
          rw [getD_set_ne st i j _ false (fun e => hji e.symm)]
          exact hoth j (List.mem_cons_of_mem _ hj) hji
        have hdone := updateLoop_eq_of_all_unchanged tb rest
          (st.set i (scanMatrixButton (matrixButtons i) tb)) hrest
        unfold updateLoop
        rw [if_pos hchg]
        show ((if scanMatrixButton (matrixButtons i) tb = true then [MatrixEvent.rising i]
            else []) ++
          [if scanMatrixButton (matrixButtons i) tb = true then MatrixEvent.pressed i
            else MatrixEvent.released i] ++
          (updateLoop tb rest (st.set i (scanMatrixButton (matrixButtons i) tb))).2) =
          [MatrixEvent.rising i, MatrixEvent.pressed i]
        rw [hdone]
        simp [hbchg]
      · have hieq : scanMatrixButton (matrixButtons i) tb = st.getD i false :=
          hoth i (List.mem_cons_self _ _) hib
        unfold updateLoop
        rw [if_neg (not_ne_iff.mpr hieq)]
        have hbrest : b ∈ rest := by
          rcases List.mem_cons.mp hb with h' | h'
          · exact absurd h'.symm hib
          · exact h'
        exact ih st hndrest hbrest hblen
          (fun j hj hjb => hoth j (List.mem_cons_of_mem _ hj) hjb) hbprev

/-- With only a row bit in the mask, every logical button scans false (its
column bit, 4–11, is never set). -/
lemma scan_row_only_false : ∀ j < 32, ∀ b < 32,
    scanMatrixButton (matrixButtons j) (1 <<< (matrixButtons b).1) = false := by decide

/-- With exactly one row bit and one column bit set, the unique button at
their intersection scans true and every other button scans false. -/
lemma scan_both_iff : ∀ j < 32, ∀ b < 32,
    scanMatrixButton (matrixButtons j)
        ((1 <<< (matrixButtons b).1) ||| (1 <<< (matrixButtons b).2)) = decide (j = b) := by
  decide

/-- C7: for every logical button `b` of the 32 and any 32-entry debounced
state, a scan whose bitmask carries only `b`'s row bit leaves
`getButtonState b = false`; a following scan with both `b`'s row and column
bits set makes it true, and that false→true transition invokes exactly the
rising-edge callback for `b` first and then the generic event callback with
`(b, Pressed)` — nothing else; and in any scan, a button whose derived
state is unchanged triggers no callback at all. -/
theorem matrix_and_gating (b : Nat) (st : List Bool) (hb : b < 32) (hlen : st.length = 32) :
    Matrix_getButtonState (updateButtonStates (1 <<< (matrixButtons b).1) st).1 b = false ∧
    Matrix_getButtonState
      (updateButtonStates ((1 <<< (matrixButtons b).1) ||| (1 <<< (matrixButtons b).2))
        (updateButtonStates (1 <<< (matrixButtons b).1) st).1).1 b = true ∧
    (updateButtonStates ((1 <<< (matrixButtons b).1) ||| (1 <<< (matrixButtons b).2))
        (updateButtonStates (1 <<< (matrixButtons b).1) st).1).2 =
      [MatrixEvent.rising b, MatrixEvent.pressed b] ∧
    (∀ tb st2 j, scanMatrixButton (matrixButtons j) tb = st2.getD j false →
      ∀ e ∈ (updateButtonStates tb st2).2,
        e ≠ MatrixEvent.rising j ∧ e ≠ MatrixEvent.pressed j ∧ e ≠ MatrixEvent.released j) := by
  have hub : ∀ tb st2, updateButtonStates tb st2 = updateLoop tb (List.range 32) st2 :=
    fun _ _ => rfl
  have hmem : b ∈ List.range 32 := List.mem_range.mpr hb
  have hlen1 : (updateButtonStates (1 <<< (matrixButtons b).1) st).1.length = 32 := by
    rw [hub, updateLoop_length, hlen]
  have hst1 : ∀ j, j < 32 →
      (updateButtonStates (1 <<< (matrixButtons b).1) st).1.getD j false = false := by
    intro j hj
    rw [hub, updateLoop_getD (1 <<< (matrixButtons b).1) (List.range 32) st j
      (by omega) (Or.inl (List.mem_range.mpr hj)), scan_row_only_false j hj b hb]
  refine ⟨?_, ?_, ?_, ?_⟩
  · rw [Matrix_getButtonState, if_neg (by simp only [MATRIX_BUTTON_COUNT]; omega)]
    exact hst1 b hb
  · rw [Matrix_getButtonState, if_neg (by simp only [MATRIX_BUTTON_COUNT]; omega)]
    rw [hub, updateLoop_getD ((1 <<< (matrixButtons b).1) ||| (1 <<< (matrixButtons b).2))
      (List.range 32) (updateButtonStates (1 <<< (matrixButtons b).1) st).1 b
      (by rw [hlen1]; exact hb) (Or.inl hmem), scan_both_iff b hb b hb]
    simp
  · rw [hub]
    apply updateLoop_single_rise
    · exact List.nodup_range 32
    · exact hmem
    · rw [hlen1]; exact hb
    · intro j hj hjb
      rw [scan_both_iff j (List.mem_range.mp hj) b hb, hst1 j (List.mem_range.mp hj)]
      simp [hjb]
    · rw [scan_both_iff b hb b hb]; simp
    · exact hst1 b hb
  · intro tb st2 j hunchanged e he
    exact updateLoop_no_event_of_unchanged tb (List.range MATRIX_BUTTON_COUNT) st2 j
      hunchanged e he

/-- Witness for C7 at button 9 (row 1, column 1) from the all-false state. -/
theorem matrix_and_gating_witness :
    Matrix_getButtonState
      (updateButtonStates (1 <<< (matrixButtons 9).1) (List.replicate 32 false)).1 9 = false ∧
    Matrix_getButtonState
      (updateButtonStates ((1 <<< (matrixButtons 9).1) ||| (1 <<< (matrixButtons 9).2))
        (updateButtonStates (1 <<< (matrixButtons 9).1) (List.replicate 32 false)).1).1 9
      = true ∧
    (updateButtonStates ((1 <<< (matrixButtons 9).1) ||| (1 <<< (matrixButtons 9).2))
        (updateButtonStates (1 <<< (matrixButtons 9).1) (List.replicate 32 false)).1).2 =
      [MatrixEvent.rising 9, MatrixEvent.pressed 9] :=
  ⟨(matrix_and_gating 9 (List.replicate 32 false) (by decide) (by decide)).1,
   (matrix_and_gating 9 (List.replicate 32 false) (by decide) (by decide)).2.1,
   (matrix_and_gating 9 (List.replicate 32 false) (by decide) (by decide)).2.2.1⟩

/-! ### C6 — envelope gate-rise-only round trip -/

/-- The context of the round-trip claim: a gate stream with a rising edge at
call 0 and no later rising edge, an envelope starting Idle at level 0, and
coefficients as the setters produce them (`1 - exp(...)` lies in (0,1] and
the attack target polynomial exceeds 1), with `sustainLevel ∈ [0,1]`. -/
def AdsrCtx (g : ℕ → Bool) (s0 : Adsr) : Prop :=
  g 0 = true ∧ (∀ n, g (n + 1) = true → g n = true) ∧
  s0.mode = .idle ∧ s0.x = 0 ∧ s0.gate = false ∧
  0 < s0.attackD0 ∧ s0.attackD0 ≤ 1 ∧
  0 < s0.decayD0 ∧ s0.decayD0 ≤ 1 ∧
  0 < s0.releaseD0 ∧ s0.releaseD0 ≤ 1 ∧
  1 < s0.attackTarget ∧ 0 ≤ s0.sus_level ∧ s0.sus_level ≤ 1

lemma Process_gate (s : Adsr) (gt : Bool) : (s.Process gt).1.gate = gt := by
  unfold Adsr.Process
  by_cases hr : gt ∧ ¬ s.gate
  · rw [if_pos hr]
    dsimp only
    split_ifs <;> rfl
  · rw [if_neg hr]
    cases s.mode <;> dsimp only <;> (try split_ifs) <;> rfl

lemma Process_params (s : Adsr) (gt : Bool) :
    (s.Process gt).1.sus_level = s.sus_level ∧
    (s.Process gt).1.attackTarget = s.attackTarget ∧
    (s.Process gt).1.attackD0 = s.attackD0 ∧
    (s.Process gt).1.decayD0 = s.decayD0 ∧
    (s.Process gt).1.releaseD0 = s.releaseD0 := by
  unfold Adsr.Process
  by_cases hr : gt ∧ ¬ s.gate
  · rw [if_pos hr]
    dsimp only
    split_ifs <;> exact ⟨rfl, rfl, rfl, rfl, rfl⟩
  · rw [if_neg hr]
    cases s.mode <;> dsimp only <;> (try split_ifs) <;> exact ⟨rfl, rfl, rfl, rfl, rfl⟩

/-- The first call: Idle state, stored gate low, incoming gate high — the
rising edge forces Attack and the attack increment is applied at once. -/
lemma Process_call0 (s : Adsr) (hm : s.mode = .idle) (hgate : s.gate = false) :
    s.Process true =
      (if 1 < s.x + s.attackD0 * (s.attackTarget - s.x)
       then ({ s with gate := true, x := 1, mode := .decay }, 1)
       else ({ s with
                 gate := true,
                 mode := .attack,
                 x := s.x + s.attackD0 * (s.attackTarget - s.x) },
             s.x + s.attackD0 * (s.attackTarget - s.x))) := by
  unfold Adsr.Process
  rw [if_pos (by simp [hgate])]

lemma Process_attack_clamp (s : Adsr) (gt : Bool) (hm : s.mode = .attack)
    (hx : 1 < s.x + s.attackD0 * (s.attackTarget - s.x)) :
    s.Process gt = ({ s with gate := gt, x := 1, mode := .decay }, 1) := by
  unfold Adsr.Process
  have hmode : (if gt ∧ ¬ s.gate then AdsrSeg.attack else s.mode) = .attack := by
    split_ifs <;> simp [hm]
  rw [hmode]
  dsimp only
  rw [if_pos hx]

lemma Process_attack_stay (s : Adsr) (gt : Bool) (hm : s.mode = .attack)
    (hx : ¬ 1 < s.x + s.attackD0 * (s.attackTarget - s.x)) :
    s.Process gt = ({ s with
        gate := gt,
        x := s.x + s.attackD0 * (s.attackTarget - s.x) },
      s.x + s.attackD0 * (s.attackTarget - s.x)) := by
  unfold Adsr.Process
  have hmode : (if gt ∧ ¬ s.gate then AdsrSeg.attack else s.mode) = .attack := by
    split_ifs <;> simp [hm]
  rw [hmode]
  dsimp only
  rw [if_neg hx, hm]

lemma Process_decay_exit (s : Adsr) (gt : Bool) (hm : s.mode = .decay)
    (hg : gt = true → s.gate = true)
    (hx : |s.x + s.decayD0 * (s.sus_level - s.x) - s.sus_level| < 1/10000) :
    s.Process gt = ({ s with
        gate := gt,
        mode := .release,
        x := s.x + s.decayD0 * (s.sus_level - s.x) },
      s.x + s.decayD0 * (s.sus_level - s.x)) := by
  unfold Adsr.Process
  have hr : ¬ (gt ∧ ¬ s.gate) := by
    rintro ⟨h1, h2⟩; exact h2 (hg h1)
  rw [if_neg hr, hm]
  dsimp only
  rw [if_pos hx]

lemma Process_decay_stay (s : Adsr) (gt : Bool) (hm : s.mode = .decay)
    (hg : gt = true → s.gate = true)
    (hx : ¬ |s.x + s.decayD0 * (s.sus_level - s.x) - s.sus_level| < 1/10000) :
    s.Process gt = ({ s with
        gate := gt,
        x := s.x + s.decayD0 * (s.sus_level - s.x) },
      s.x + s.decayD0 * (s.sus_level - s.x)) := by
  unfold Adsr.Process
  have hr : ¬ (gt ∧ ¬ s.gate) := by
    rintro ⟨h1, h2⟩; exact h2 (hg h1)
  rw [if_neg hr, hm]
  dsimp only
  rw [if_neg hx]

lemma Process_release_exit (s : Adsr) (gt : Bool) (hm : s.mode = .release)
    (hg : gt = true → s.gate = true)
    (hx : s.x + s.releaseD0 * (-(1/100) - s.x) < 0) :
    s.Process gt = ({ s with gate := gt, x := 0, mode := .idle }, 0) := by
  unfold Adsr.Process
  have hr : ¬ (gt ∧ ¬ s.gate) := by
    rintro ⟨h1, h2⟩; exact h2 (hg h1)
  rw [if_neg hr, hm]
  dsimp only
  rw [if_pos hx]

lemma Process_release_stay (s : Adsr) (gt : Bool) (hm : s.mode = .release)
    (hg : gt = true → s.gate = true)
    (hx : ¬ s.x + s.releaseD0 * (-(1/100) - s.x) < 0) :
    s.Process gt = ({ s with
        gate := gt,
        x := s.x + s.releaseD0 * (-(1/100) - s.x) },
      s.x + s.releaseD0 * (-(1/100) - s.x)) := by
  unfold Adsr.Process
  have hr : ¬ (gt ∧ ¬ s.gate) := by
    rintro ⟨h1, h2⟩; exact h2 (hg h1)
  rw [if_neg hr, hm]
  dsimp only
  rw [if_neg hx]

lemma Process_idle_step (s : Adsr) (gt : Bool) (hm : s.mode = .idle)
    (hg : gt = true → s.gate = true) :
    s.Process gt = ({ s with gate := gt }, 0) := by
  unfold Adsr.Process
  have hr : ¬ (gt ∧ ¬ s.gate) := by
    rintro ⟨h1, h2⟩; exact h2 (hg h1)
  rw [if_neg hr, hm]

/-- A falling gate edge processes identically (mode and output) to a held
gate: the commented-out release branch means release is never forced. -/
lemma Process_falling_no_release (s : Adsr) (hs : s.gate = true) :
    (s.Process false).1.mode = (s.Process true).1.mode ∧
    (s.Process false).2 = (s.Process true).2 := by
  unfold Adsr.Process
  rw [if_neg (by simp), if_neg (by simp [hs])]
  cases s.mode <;> dsimp only <;> (try split_ifs) <;> exact ⟨rfl, rfl⟩

lemma adsrRun_gate (g : ℕ → Bool) (s0 : Adsr) (n : ℕ) :
    (adsrRun g s0 (n + 1)).gate = g n :=
  Process_gate (adsrRun g s0 n) (g n)

lemma adsrRun_params (g : ℕ → Bool) (s0 : Adsr) (n : ℕ) :
    (adsrRun g s0 n).sus_level = s0.sus_level ∧
    (adsrRun g s0 n).attackTarget = s0.attackTarget ∧
    (adsrRun g s0 n).attackD0 = s0.attackD0 ∧
    (adsrRun g s0 n).decayD0 = s0.decayD0 ∧
    (adsrRun g s0 n).releaseD0 = s0.releaseD0 := by
  induction n with
  | zero => exact ⟨rfl, rfl, rfl, rfl, rfl⟩
  | succ n ih =>
      have hp := Process_params (adsrRun g s0 n) (g n)
      exact ⟨hp.1.trans ih.1, hp.2.1.trans ih.2.1, hp.2.2.1.trans ih.2.2.1,
        hp.2.2.2.1.trans ih.2.2.2.1, hp.2.2.2.2.trans ih.2.2.2.2⟩

/-- No rising edge can occur at calls 1, 2, …: if the gate is up at call
`n ≥ 1` it was already up at call `n-1`, hence stored up. -/
lemma adsrRun_no_rise (g : ℕ → Bool) (s0 : Adsr)
    (hmono : ∀ n, g (n + 1) = true → g n = true) (n : ℕ) (hn : 1 ≤ n) :
    g n = true → (adsrRun g s0 n).gate = true := by
  obtain ⟨m, rfl⟩ : ∃ m, n = m + 1 := ⟨n - 1, by omega⟩
  intro h
  rw [adsrRun_gate]
  exact hmono m h

/-- Geometric decrease beats any positive bound. -/
lemma exists_pow_mul_lt (q M eps : ℚ) (hq0 : 0 ≤ q) (hq1 : q < 1) (hM : 0 ≤ M)
    (heps : 0 < eps) : ∃ n : ℕ, q ^ n * M < eps := by
  rcases eq_or_lt_of_le hq0 with h0 | h0
  · refine ⟨1, ?_⟩
    rw [← h0]
    simpa using heps
  · have h1q : 1 < 1 / q := by
      rw [lt_div_iff h0]
      simpa using hq1
    obtain ⟨n, hn⟩ := pow_unbounded_of_one_lt (M / eps) h1q
    refine ⟨n, ?_⟩
    have hqn : 0 < q ^ n := pow_pos h0 n
    have h2 : M < eps * (1 / q) ^ n := by
      rw [div_lt_iff heps] at hn
      linarith [hn]
    have h3 : q ^ n * M < q ^ n * (eps * (1 / q) ^ n) :=
      mul_lt_mul_of_pos_left h2 hqn
    calc q ^ n * M < q ^ n * (eps * (1 / q) ^ n) := h3
      _ = eps := by
          rw [one_div, inv_pow]
          field_simp

/-- The attack phase terminates: there is a first call index (at least 1)
whose resulting stage is no longer Attack; at that index the level has been
clamped to 1 and the stage is Decay, and every earlier index since the
trigger was in Attack. -/
lemma attack_phase (g : ℕ → Bool) (s0 : Adsr) (h : AdsrCtx g s0) :
    ∃ nA, 1 ≤ nA ∧ (∀ m, 1 ≤ m → m < nA → (adsrRun g s0 m).mode = .attack) ∧
      (adsrRun g s0 nA).mode = .decay ∧ (adsrRun g s0 nA).x = 1 := by
  obtain ⟨hg0, hmono, hm0, hx0, hgt0, hA0, hA1, hD0, hD1, hR0, hR1, hT, hS0, hS1⟩ := h
  have hT0 : (0 : ℚ) < s0.attackTarget := by linarith
  have hrun1 : adsrRun g s0 1 = (s0.Process (g 0)).1 := rfl
  have hex : ∃ n, 1 ≤ n ∧ (adsrRun g s0 n).mode ≠ .attack := by
    by_contra hc
    push_neg at hc
    have hcall0 := Process_call0 s0 hm0 hgt0
    by_cases hclamp : 1 < s0.x + s0.attackD0 * (s0.attackTarget - s0.x)
    · rw [if_pos hclamp] at hcall0
      have hd : (adsrRun g s0 1).mode = .decay := by
        rw [hrun1, hg0, hcall0]
      rw [hc 1 le_rfl] at hd
      simp at hd
    · rw [if_neg hclamp] at hcall0
      have hval : s0.x + s0.attackD0 * (s0.attackTarget - s0.x) =
          s0.attackD0 * s0.attackTarget := by rw [hx0]; ring
      have hx1 : (adsrRun g s0 1).x = s0.attackD0 * s0.attackTarget := by
        rw [hrun1, hg0, hcall0, ← hval]
      have hx1le : (adsrRun g s0 1).x ≤ 1 := by
        push_neg at hclamp
        rw [hx1, ← hval]
        exact hclamp
      have hstep : ∀ n, 1 ≤ n → (adsrRun g s0 (n+1)).x =
          (adsrRun g s0 n).x + s0.attackD0 * (s0.attackTarget - (adsrRun g s0 n).x) ∧
          (adsrRun g s0 (n+1)).x ≤ 1 := by
        intro n hn
        have hmn := hc n hn
        obtain ⟨hpS, hpT, hpA, hpD, hpR⟩ := adsrRun_params g s0 n
        by_cases hcl : 1 < (adsrRun g s0 n).x + (adsrRun g s0 n).attackD0 *
            ((adsrRun g s0 n).attackTarget - (adsrRun g s0 n).x)
        · have hd : (adsrRun g s0 (n+1)).mode = .decay := by
            show (Adsr.Process (adsrRun g s0 n) (g n)).1.mode = _
            rw [Process_attack_clamp _ _ hmn hcl]
          rw [hc (n+1) (by omega)] at hd
          simp at hd
        · have heq : adsrRun g s0 (n+1) = { adsrRun g s0 n with
              gate := g n,
              x := (adsrRun g s0 n).x + (adsrRun g s0 n).attackD0 *
                ((adsrRun g s0 n).attackTarget - (adsrRun g s0 n).x) } := by
            show (Adsr.Process (adsrRun g s0 n) (g n)).1 = _
            rw [Process_attack_stay _ _ hmn hcl]
          push_neg at hcl
          rw [hpA, hpT] at hcl
          constructor
          · rw [heq]
            dsimp only
            rw [hpA, hpT]
          · rw [heq]
            dsimp only
            rw [hpA, hpT]
            exact hcl
      have hform : ∀ k, s0.attackTarget - (adsrRun g s0 (1+k)).x =
          (1 - s0.attackD0) ^ k *
            (s0.attackTarget - s0.attackD0 * s0.attackTarget) := by
        intro k
        induction k with
        | zero =>
            rw [hx1]
            ring
        | succ k ih =>
            have hs := (hstep (1+k) (by omega)).1
            rw [show 1 + (k+1) = (1+k) + 1 from by ring, hs]
            rw [pow_succ]
            linear_combination (1 - s0.attackD0) * ih
      have hxle : ∀ k, (adsrRun g s0 (1+k)).x ≤ 1 := by
        intro k
        cases k with
        | zero => exact hx1le
        | succ k =>
            have := (hstep (1+k) (by omega)).2
            rwa [show 1 + (k+1) = (1+k) + 1 from by ring]
      have hub : ∀ k, s0.attackTarget - 1 ≤
          (1 - s0.attackD0) ^ k *
            (s0.attackTarget - s0.attackD0 * s0.attackTarget) := by
        intro k
        have h1 := hform k
        have h2 := hxle k
        linarith
      obtain ⟨k, hk⟩ := exists_pow_mul_lt (1 - s0.attackD0) s0.attackTarget
        (s0.attackTarget - 1) (by linarith) (by linarith) (by linarith) (by linarith)
      have hCT : s0.attackTarget - s0.attackD0 * s0.attackTarget ≤ s0.attackTarget := by
        nlinarith
      have h1 : (1 - s0.attackD0) ^ k *
          (s0.attackTarget - s0.attackD0 * s0.attackTarget) ≤
          (1 - s0.attackD0) ^ k * s0.attackTarget :=
        mul_le_mul_of_nonneg_left hCT (pow_nonneg (by linarith) k)
      linarith [hub k]
  refine ⟨Nat.find hex, (Nat.find_spec hex).1, ?_, ?_⟩
  · intro m hm1 hmlt
    have hmin := Nat.find_min hex hmlt
    push_neg at hmin
    exact hmin hm1
  · obtain ⟨m, hm⟩ : ∃ m, Nat.find hex = m + 1 :=
      ⟨Nat.find hex - 1, by have := (Nat.find_spec hex).1; omega⟩
    have hspec2 := (Nat.find_spec hex).2
    rcases Nat.eq_zero_or_pos m with h0 | hpos
    · subst h0
      have hcall0 := Process_call0 s0 hm0 hgt0
      by_cases hclamp : 1 < s0.x + s0.attackD0 * (s0.attackTarget - s0.x)
      · rw [if_pos hclamp] at hcall0
        rw [hm]
        constructor
        · rw [hrun1, hg0, hcall0]
        · rw [hrun1, hg0, hcall0]
      · rw [if_neg hclamp] at hcall0
        exfalso
        apply hspec2
        rw [hm, hrun1, hg0, hcall0]
    · have hmode_m : (adsrRun g s0 m).mode = .attack := by
        have hmin := Nat.find_min hex (show m < Nat.find hex from by omega)
        push_neg at hmin
        exact hmin hpos
      by_cases hcl : 1 < (adsrRun g s0 m).x + (adsrRun g s0 m).attackD0 *
          ((adsrRun g s0 m).attackTarget - (adsrRun g s0 m).x)
      · rw [hm]
        have heq : adsrRun g s0 (m+1) = { adsrRun g s0 m with
            gate := g m, x := 1, mode := .decay } := by
          show (Adsr.Process (adsrRun g s0 m) (g m)).1 = _
          rw [Process_attack_clamp _ _ hmode_m hcl]
        rw [heq]
        exact ⟨rfl, rfl⟩
      · exfalso
        apply hspec2
        rw [hm]
        show (Adsr.Process (adsrRun g s0 m) (g m)).1.mode = _
        rw [Process_attack_stay _ _ hmode_m hcl]
        exact hmode_m

/-- One run step from a Decay state: the level follows the decay recurrence
and the stage moves to Release exactly when the new level is within 0.0001
of the sustain level. -/
lemma decay_step (g : ℕ → Bool) (s0 : Adsr)
    (hmono : ∀ n, g (n + 1) = true → g n = true) (n : ℕ) (hn : 1 ≤ n)
    (hmode : (adsrRun g s0 n).mode = .decay) :
    (adsrRun g s0 (n+1)).x =
      (adsrRun g s0 n).x + s0.decayD0 * (s0.sus_level - (adsrRun g s0 n).x) ∧
    (if |(adsrRun g s0 n).x + s0.decayD0 * (s0.sus_level - (adsrRun g s0 n).x)
        - s0.sus_level| < 1/10000
     then (adsrRun g s0 (n+1)).mode = .release
     else (adsrRun g s0 (n+1)).mode = .decay) := by
  obtain ⟨hpS, hpT, hpA, hpD, hpR⟩ := adsrRun_params g s0 n
  have hg := adsrRun_no_rise g s0 hmono n hn
  by_cases hcond : |(adsrRun g s0 n).x + s0.decayD0 *
      (s0.sus_level - (adsrRun g s0 n).x) - s0.sus_level| < 1/10000
  · have hcond2 : |(adsrRun g s0 n).x + (adsrRun g s0 n).decayD0 *
        ((adsrRun g s0 n).sus_level - (adsrRun g s0 n).x) -
        (adsrRun g s0 n).sus_level| < 1/10000 := by rw [hpD, hpS]; exact hcond
    have heq : adsrRun g s0 (n+1) = { adsrRun g s0 n with
        gate := g n,
        mode := .release,
        x := (adsrRun g s0 n).x + (adsrRun g s0 n).decayD0 *
          ((adsrRun g s0 n).sus_level - (adsrRun g s0 n).x) } := by
      show (Adsr.Process (adsrRun g s0 n) (g n)).1 = _
      rw [Process_decay_exit _ _ hmode hg hcond2]
    rw [if_pos hcond]
    constructor
    · rw [heq]
      dsimp only
      rw [hpD, hpS]
    · rw [heq]
  · have hcond2 : ¬ |(adsrRun g s0 n).x + (adsrRun g s0 n).decayD0 *
        ((adsrRun g s0 n).sus_level - (adsrRun g s0 n).x) -
        (adsrRun g s0 n).sus_level| < 1/10000 := by rw [hpD, hpS]; exact hcond
    have heq : adsrRun g s0 (n+1) = { adsrRun g s0 n with
        gate := g n,
        x := (adsrRun g s0 n).x + (adsrRun g s0 n).decayD0 *
          ((adsrRun g s0 n).sus_level - (adsrRun g s0 n).x) } := by
      show (Adsr.Process (adsrRun g s0 n) (g n)).1 = _
      rw [Process_decay_stay _ _ hmode hg hcond2]
    rw [if_neg hcond]
    constructor
    · rw [heq]
      dsimp only
      rw [hpD, hpS]
    · rw [heq]
      exact hmode

/-- One run step from a Release state: the level follows the release
recurrence toward −0.01 and on crossing 0 it is clamped to 0 with the stage
moving to Idle. -/
lemma release_step (g : ℕ → Bool) (s0 : Adsr)
    (hmono : ∀ n, g (n + 1) = true → g n = true) (n : ℕ) (hn : 1 ≤ n)
    (hmode : (adsrRun g s0 n).mode = .release) :
    (if (adsrRun g s0 n).x + s0.releaseD0 * (-(1/100) - (adsrRun g s0 n).x) < 0
     then (adsrRun g s0 (n+1)).mode = .idle ∧ (adsrRun g s0 (n+1)).x = 0
     else (adsrRun g s0 (n+1)).mode = .release ∧
       (adsrRun g s0 (n+1)).x =
         (adsrRun g s0 n).x + s0.releaseD0 * (-(1/100) - (adsrRun g s0 n).x)) := by
  obtain ⟨hpS, hpT, hpA, hpD, hpR⟩ := adsrRun_params g s0 n
  have hg := adsrRun_no_rise g s0 hmono n hn
  by_cases hcond : (adsrRun g s0 n).x + s0.releaseD0 *
      (-(1/100) - (adsrRun g s0 n).x) < 0
  · have hcond2 : (adsrRun g s0 n).x + (adsrRun g s0 n).releaseD0 *
        (-(1/100) - (adsrRun g s0 n).x) < 0 := by rw [hpR]; exact hcond
    have heq : adsrRun g s0 (n+1) = { adsrRun g s0 n with
        gate := g n, x := 0, mode := .idle } := by
      show (Adsr.Process (adsrRun g s0 n) (g n)).1 = _
      rw [Process_release_exit _ _ hmode hg hcond2]
    rw [if_pos hcond, heq]
    exact ⟨rfl, rfl⟩
  · have hcond2 : ¬ (adsrRun g s0 n).x + (adsrRun g s0 n).releaseD0 *
        (-(1/100) - (adsrRun g s0 n).x) < 0 := by rw [hpR]; exact hcond
    have heq : adsrRun g s0 (n+1) = { adsrRun g s0 n with
        gate := g n,
        x := (adsrRun g s0 n).x + (adsrRun g s0 n).releaseD0 *
          (-(1/100) - (adsrRun g s0 n).x) } := by
      show (Adsr.Process (adsrRun g s0 n) (g n)).1 = _
      rw [Process_release_stay _ _ hmode hg hcond2]
    rw [if_neg hcond, heq]
    refine ⟨hmode, ?_⟩
    dsimp only
    rw [hpR]

/-- One run step from an Idle state with no rising edge: nothing changes. -/
lemma idle_run_step (g : ℕ → Bool) (s0 : Adsr)
    (hmono : ∀ n, g (n + 1) = true → g n = true) (n : ℕ) (hn : 1 ≤ n)
    (hmode : (adsrRun g s0 n).mode = .idle) :
    (adsrRun g s0 (n+1)).mode = .idle ∧
    (adsrRun g s0 (n+1)).x = (adsrRun g s0 n).x := by
  have hg := adsrRun_no_rise g s0 hmono n hn
  have heq : adsrRun g s0 (n+1) = { adsrRun g s0 n with gate := g n } := by
    show (Adsr.Process (adsrRun g s0 n) (g n)).1 = _
    rw [Process_idle_step _ _ hmode hg]
  rw [heq]
  exact ⟨hmode, rfl⟩

/-- The decay phase terminates: from a Decay state at level 1 there is a
first later index whose stage is Release, reached with the level within
0.0001 of (and at least) the sustain level, every index in between being
Decay. -/
lemma decay_phase (g : ℕ → Bool) (s0 : Adsr) (h : AdsrCtx g s0) (nA : ℕ)
    (hnA1 : 1 ≤ nA) (hmodeA : (adsrRun g s0 nA).mode = .decay)
    (hxA : (adsrRun g s0 nA).x = 1) :
    ∃ nD, nA < nD ∧ (∀ m, nA ≤ m → m < nD → (adsrRun g s0 m).mode = .decay) ∧
      (adsrRun g s0 nD).mode = .release ∧
      s0.sus_level ≤ (adsrRun g s0 nD).x ∧
      |(adsrRun g s0 nD).x - s0.sus_level| < 1/10000 := by
  obtain ⟨hg0, hmono, hm0, hx0, hgt0, hA0, hA1, hD0, hD1, hR0, hR1, hT, hS0, hS1⟩ := h
  have hex : ∃ n, nA < n ∧ (adsrRun g s0 n).mode ≠ .decay := by
    by_contra hc
    push_neg at hc
    have hmode_all : ∀ k, (adsrRun g s0 (nA + k)).mode = .decay := by
      intro k
      cases k with
      | zero => exact hmodeA
      | succ k => exact hc (nA + (k+1)) (by omega)
    have hform : ∀ k, (adsrRun g s0 (nA + k)).x - s0.sus_level =
        (1 - s0.decayD0) ^ k * (1 - s0.sus_level) := by
      intro k
      induction k with
      | zero =>
          show (adsrRun g s0 nA).x - s0.sus_level = _
          rw [hxA]
          ring
      | succ k ih =>
          have hstep := decay_step g s0 hmono (nA+k) (by omega) (hmode_all k)
          show (adsrRun g s0 ((nA+k)+1)).x - s0.sus_level = _
          rw [hstep.1, pow_succ]
          linear_combination (1 - s0.decayD0) * ih
    have hge : ∀ k, 1/10000 ≤ (1 - s0.decayD0) ^ (k+1) * (1 - s0.sus_level) := by
      intro k
      have hstep := decay_step g s0 hmono (nA+k) (by omega) (hmode_all k)
      have hnext : (adsrRun g s0 ((nA+k)+1)).mode = .decay := hmode_all (k+1)
      by_cases hcond : |(adsrRun g s0 (nA+k)).x + s0.decayD0 *
          (s0.sus_level - (adsrRun g s0 (nA+k)).x) - s0.sus_level| < 1/10000
      · exfalso
        rw [if_pos hcond] at hstep
        rw [hnext] at hstep
        simp at hstep
      · push_neg at hcond
        have hf : (adsrRun g s0 ((nA+k)+1)).x - s0.sus_level =
            (1 - s0.decayD0) ^ (k+1) * (1 - s0.sus_level) := hform (k+1)
        have hxeq := hstep.1
        rw [hxeq] at hf
        have hpos : 0 ≤ (1 - s0.decayD0) ^ (k+1) * (1 - s0.sus_level) :=
          mul_nonneg (pow_nonneg (by linarith) _) (by linarith)
        rw [abs_of_nonneg (by linarith)] at hcond
        linarith
    obtain ⟨k0, hk0⟩ := exists_pow_mul_lt (1 - s0.decayD0) (1 - s0.sus_level) (1/10000)
      (by linarith) (by linarith) (by linarith) (by norm_num)
    have hmp : (1 - s0.decayD0) ^ (k0+1) * (1 - s0.sus_level) ≤
        (1 - s0.decayD0) ^ k0 * (1 - s0.sus_level) :=
      mul_le_mul_of_nonneg_right
        (pow_le_pow_of_le_one (by linarith) (by linarith) (Nat.le_succ k0)) (by linarith)
    linarith [hge k0]
  have hnlt : nA < Nat.find hex := (Nat.find_spec hex).1
  have hspan : ∀ m, nA ≤ m → m < Nat.find hex → (adsrRun g s0 m).mode = .decay := by
    intro m hm1 hm2
    rcases eq_or_lt_of_le hm1 with he | hlt
    · rw [← he]; exact hmodeA
    · have hmin := Nat.find_min hex hm2
      push_neg at hmin
      exact hmin hlt
  have hxge : ∀ k, nA + k < Nat.find hex → s0.sus_level ≤ (adsrRun g s0 (nA+k)).x := by
    intro k
    induction k with
    | zero =>
        intro _
        show s0.sus_level ≤ (adsrRun g s0 nA).x
        rw [hxA]
        exact hS1
    | succ k ih =>
        intro hlt
        have hklt : nA + k < Nat.find hex := by omega
        have hxk := ih hklt
        have hmd := hspan (nA+k) (by omega) hklt
        have hstep := decay_step g s0 hmono (nA+k) (by omega) hmd
        show s0.sus_level ≤ (adsrRun g s0 ((nA+k)+1)).x
        rw [hstep.1]
        nlinarith [mul_nonneg (by linarith : (0:ℚ) ≤ 1 - s0.decayD0)
          (by linarith : (0:ℚ) ≤ (adsrRun g s0 (nA+k)).x - s0.sus_level)]
  obtain ⟨m, hm⟩ : ∃ m, Nat.find hex = m + 1 := ⟨Nat.find hex - 1, by omega⟩
  have hmge : nA ≤ m := by omega
  have hmlt : m < Nat.find hex := by omega
  have hmd := hspan m hmge hmlt
  have hxm : s0.sus_level ≤ (adsrRun g s0 m).x := by
    have h' := hxge (m - nA)
    rw [show nA + (m - nA) = m from by omega] at h'
    exact h' hmlt
  have hstep := decay_step g s0 hmono m (by omega) hmd
  by_cases hcond : |(adsrRun g s0 m).x + s0.decayD0 *
      (s0.sus_level - (adsrRun g s0 m).x) - s0.sus_level| < 1/10000
  · rw [if_pos hcond] at hstep
    refine ⟨Nat.find hex, hnlt, hspan, ?_, ?_, ?_⟩
    · rw [hm]; exact hstep.2
    · rw [hm, hstep.1]
      nlinarith [mul_nonneg (by linarith : (0:ℚ) ≤ 1 - s0.decayD0)
        (by linarith : (0:ℚ) ≤ (adsrRun g s0 m).x - s0.sus_level)]
    · rw [hm, hstep.1]
      exact hcond
  · rw [if_neg hcond] at hstep
    exact absurd (hm ▸ hstep.2) (Nat.find_spec hex).2

/-- The release phase terminates: from a Release state with a nonnegative
level there is a first later index whose stage is Idle with the level
clamped to 0; throughout the release span the level is nonnegative and
non-increasing. -/
lemma release_phase (g : ℕ → Bool) (s0 : Adsr) (h : AdsrCtx g s0) (nD : ℕ)
    (hnD1 : 1 ≤ nD) (hmodeD : (adsrRun g s0 nD).mode = .release)
    (hxD : 0 ≤ (adsrRun g s0 nD).x) :
    ∃ nI, nD < nI ∧
      (∀ m, nD ≤ m → m < nI → (adsrRun g s0 m).mode = .release ∧
        0 ≤ (adsrRun g s0 m).x ∧ (adsrRun g s0 (m+1)).x ≤ (adsrRun g s0 m).x) ∧
      (adsrRun g s0 nI).mode = .idle ∧ (adsrRun g s0 nI).x = 0 := by
  obtain ⟨hg0, hmono, hm0, hx0, hgt0, hA0, hA1, hD0, hD1, hR0, hR1, hT, hS0, hS1⟩ := h
  have hex : ∃ n, nD < n ∧ (adsrRun g s0 n).mode ≠ .release := by
    by_contra hc
    push_neg at hc
    have hmode_all : ∀ k, (adsrRun g s0 (nD + k)).mode = .release := by
      intro k
      cases k with
      | zero => exact hmodeD
      | succ k => exact hc (nD + (k+1)) (by omega)
    have hform : ∀ k, (adsrRun g s0 (nD + k)).x + 1/100 =
        (1 - s0.releaseD0) ^ k * ((adsrRun g s0 nD).x + 1/100) := by
      intro k
      induction k with
      | zero =>
          show (adsrRun g s0 nD).x + 1/100 = _
          ring
      | succ k ih =>
          have hstep := release_step g s0 hmono (nD+k) (by omega) (hmode_all k)
          by_cases hcond : (adsrRun g s0 (nD+k)).x + s0.releaseD0 *
              (-(1/100) - (adsrRun g s0 (nD+k)).x) < 0
          · exfalso
            rw [if_pos hcond] at hstep
            have := hmode_all (k+1)
            rw [show nD + (k+1) = (nD+k)+1 from rfl, hstep.1] at this
            simp at this
          · rw [if_neg hcond] at hstep
            show (adsrRun g s0 ((nD+k)+1)).x + 1/100 = _
            rw [hstep.2, pow_succ]
            linear_combination (1 - s0.releaseD0) * ih
    have hge : ∀ k, 1/100 ≤ (1 - s0.releaseD0) ^ (k+1) * ((adsrRun g s0 nD).x + 1/100) := by
      intro k
      have hstep := release_step g s0 hmono (nD+k) (by omega) (hmode_all k)
      by_cases hcond : (adsrRun g s0 (nD+k)).x + s0.releaseD0 *
          (-(1/100) - (adsrRun g s0 (nD+k)).x) < 0
      · exfalso
        rw [if_pos hcond] at hstep
        have := hmode_all (k+1)
        rw [show nD + (k+1) = (nD+k)+1 from rfl, hstep.1] at this
        simp at this
      · rw [if_neg hcond] at hstep
        push_neg at hcond
        have hf : (adsrRun g s0 ((nD+k)+1)).x + 1/100 =
            (1 - s0.releaseD0) ^ (k+1) * ((adsrRun g s0 nD).x + 1/100) := hform (k+1)
        rw [hstep.2] at hf
        linarith
    obtain ⟨k0, hk0⟩ := exists_pow_mul_lt (1 - s0.releaseD0)
      ((adsrRun g s0 nD).x + 1/100) (1/100)
      (by linarith) (by linarith) (by linarith) (by norm_num)
    have hmp : (1 - s0.releaseD0) ^ (k0+1) * ((adsrRun g s0 nD).x + 1/100) ≤
        (1 - s0.releaseD0) ^ k0 * ((adsrRun g s0 nD).x + 1/100) :=
      mul_le_mul_of_nonneg_right
        (pow_le_pow_of_le_one (by linarith) (by linarith) (Nat.le_succ k0)) (by linarith)
    linarith [hge k0]
  have hnlt : nD < Nat.find hex := (Nat.find_spec hex).1
  have hspan : ∀ m, nD ≤ m → m < Nat.find hex → (adsrRun g s0 m).mode = .release := by
    intro m hm1 hm2
    rcases eq_or_lt_of_le hm1 with he | hlt
    · rw [← he]; exact hmodeD
    · have hmin := Nat.find_min hex hm2
      push_neg at hmin
      exact hmin hlt
  have hxge : ∀ k, nD + k < Nat.find hex → 0 ≤ (adsrRun g s0 (nD+k)).x := by
    intro k
    induction k with
    | zero => intro _; exact hxD
    | succ k ih =>
        intro hlt
        have hklt : nD + k < Nat.find hex := by omega
        have hmd := hspan (nD+k) (by omega) hklt
        have hstep := release_step g s0 hmono (nD+k) (by omega) hmd
        have hmd1 : (adsrRun g s0 ((nD+k)+1)).mode = .release :=
          hspan ((nD+k)+1) (by omega) (by omega)
        by_cases hcond : (adsrRun g s0 (nD+k)).x + s0.releaseD0 *
            (-(1/100) - (adsrRun g s0 (nD+k)).x) < 0
        · exfalso
          rw [if_pos hcond] at hstep
          rw [hmd1] at hstep
          simp at hstep
        · rw [if_neg hcond] at hstep
          push_neg at hcond
          show 0 ≤ (adsrRun g s0 ((nD+k)+1)).x
          rw [hstep.2]
          exact hcond
  have hxge' : ∀ m, nD ≤ m → m < Nat.find hex → 0 ≤ (adsrRun g s0 m).x := by
    intro m hm1 hm2
    have h' := hxge (m - nD)
    rw [show nD + (m - nD) = m from by omega] at h'
    exact h' hm2
  refine ⟨Nat.find hex, hnlt, ?_, ?_⟩
  · intro m hm1 hm2
    have hmd := hspan m hm1 hm2
    have hx0m := hxge' m hm1 hm2
    refine ⟨hmd, hx0m, ?_⟩
    have hstep := release_step g s0 hmono m (by omega) hmd
    by_cases hcond : (adsrRun g s0 m).x + s0.releaseD0 *
        (-(1/100) - (adsrRun g s0 m).x) < 0
    · rw [if_pos hcond] at hstep
      rw [hstep.2]
      exact hx0m
    · rw [if_neg hcond] at hstep
      rw [hstep.2]
      have hnp : s0.releaseD0 * (-(1/100) - (adsrRun g s0 m).x) ≤ 0 :=
        mul_nonpos_of_nonneg_of_nonpos (le_of_lt hR0) (by linarith)
      linarith
  · obtain ⟨m, hm⟩ : ∃ m, Nat.find hex = m + 1 := ⟨Nat.find hex - 1, by omega⟩
    have hmge : nD ≤ m := by omega
    have hmlt : m < Nat.find hex := by omega
    have hmd := hspan m hmge hmlt
    have hx0m := hxge' m hmge hmlt
    have hstep := release_step g s0 hmono m (by omega) hmd
    by_cases hcond : (adsrRun g s0 m).x + s0.releaseD0 *
        (-(1/100) - (adsrRun g s0 m).x) < 0
    · rw [if_pos hcond] at hstep
      rw [hm]
      exact hstep
    · rw [if_neg hcond] at hstep
      exact absurd (hm ▸ hstep.1) (Nat.find_spec hex).2

/-- Once Idle at level 0 with no later rising edge, the envelope stays Idle
at level 0 forever. -/
lemma idle_tail (g : ℕ → Bool) (s0 : Adsr)
    (hmono : ∀ n, g (n + 1) = true → g n = true) (nI : ℕ) (hnI : 1 ≤ nI)
    (hmodeI : (adsrRun g s0 nI).mode = .idle) (hxI : (adsrRun g s0 nI).x = 0) :
    ∀ m, nI ≤ m → (adsrRun g s0 m).mode = .idle ∧ (adsrRun g s0 m).x = 0 := by
  intro m hm
  obtain ⟨k, rfl⟩ : ∃ k, m = nI + k := ⟨m - nI, by omega⟩
  clear hm
  induction k with
  | zero => exact ⟨hmodeI, hxI⟩
  | succ k ih =>
      have hstep := idle_run_step g s0 hmono (nI+k) (by omega) ih.1
      exact ⟨hstep.1, hstep.2.trans ih.2⟩

/-- C6: starting from Idle at level 0, a single rising gate edge followed
by repeated `Process` calls — with any later gate values that contain no
second rising edge, including a falling edge at any time — drives the
envelope through Attack until the level is clamped to 1 (entering Decay),
then through Decay to within 0.0001 of the sustain level (entering
Release), then monotonically down through 0 where it is clamped to 0 and
stays in Idle forever; moreover a falling gate edge never forces the
Release stage (it processes identically to a held gate). -/
theorem adsr_gate_rise_only_round_trip (g : ℕ → Bool) (s0 : Adsr) (h : AdsrCtx g s0) :
    (∃ nA nD nI : ℕ, 1 ≤ nA ∧ nA < nD ∧ nD < nI ∧
      (∀ m, 1 ≤ m → m < nA → (adsrRun g s0 m).mode = .attack) ∧
      (adsrRun g s0 nA).mode = .decay ∧ (adsrRun g s0 nA).x = 1 ∧
      (∀ m, nA ≤ m → m < nD → (adsrRun g s0 m).mode = .decay) ∧
      (adsrRun g s0 nD).mode = .release ∧
      |(adsrRun g s0 nD).x - s0.sus_level| < 1/10000 ∧
      (∀ m, nD ≤ m → m < nI →
        (adsrRun g s0 m).mode = .release ∧
        (adsrRun g s0 (m+1)).x ≤ (adsrRun g s0 m).x) ∧
      (∀ m, nI ≤ m → (adsrRun g s0 m).mode = .idle ∧ (adsrRun g s0 m).x = 0)) ∧
    (∀ s : Adsr, s.gate = true →
      (s.Process false).1.mode = (s.Process true).1.mode ∧
      (s.Process false).2 = (s.Process true).2) := by
  constructor
  · have h' := h
    obtain ⟨hg0, hmono, _, _, _, _, _, _, _, _, _, _, hS0, _⟩ := h'
    obtain ⟨nA, hnA1, hattack, hmodeA, hxA⟩ := attack_phase g s0 h
    obtain ⟨nD, hAD, hdec, hmodeD, hxDge, hxDeps⟩ := decay_phase g s0 h nA hnA1 hmodeA hxA
    have hxD0 : 0 ≤ (adsrRun g s0 nD).x := le_trans hS0 hxDge
    obtain ⟨nI, hDI, hrel, hmodeI, hxI⟩ := release_phase g s0 h nD (by omega) hmodeD hxD0
    refine ⟨nA, nD, nI, hnA1, hAD, hDI, hattack, hmodeA, hxA, hdec, hmodeD, hxDeps, ?_, ?_⟩
    · intro m hm1 hm2
      exact ⟨(hrel m hm1 hm2).1, (hrel m hm1 hm2).2.2⟩
    · exact idle_tail g s0 hmono nI (by omega) hmodeI hxI
  · intro s hs
    exact Process_falling_no_release s hs

/-- A concrete envelope for the round-trip witness: instantaneous segment
coefficients (time ≤ 0 gives coefficient 1), attack target 2, sustain 1/2. -/
def adsrW : Adsr :=
  { sus_level := 1/2, attackTarget := 2, attackD0 := 1, decayD0 := 1, releaseD0 := 1,
    x := 0, gate := false, mode := .idle }

/-- Witness for C6: the held-high gate stream against `adsrW`. -/
theorem adsr_gate_rise_only_round_trip_witness :
    (∃ nA nD nI : ℕ, 1 ≤ nA ∧ nA < nD ∧ nD < nI ∧
      (∀ m, 1 ≤ m → m < nA → (adsrRun (fun _ => true) adsrW m).mode = .attack) ∧
      (adsrRun (fun _ => true) adsrW nA).mode = .decay ∧
      (adsrRun (fun _ => true) adsrW nA).x = 1 ∧
      (∀ m, nA ≤ m → m < nD → (adsrRun (fun _ => true) adsrW m).mode = .decay) ∧
      (adsrRun (fun _ => true) adsrW nD).mode = .release ∧
      |(adsrRun (fun _ => true) adsrW nD).x - adsrW.sus_level| < 1/10000 ∧
      (∀ m, nD ≤ m → m < nI →
        (adsrRun (fun _ => true) adsrW m).mode = .release ∧
        (adsrRun (fun _ => true) adsrW (m+1)).x ≤ (adsrRun (fun _ => true) adsrW m).x) ∧
      (∀ m, nI ≤ m → (adsrRun (fun _ => true) adsrW m).mode = .idle ∧
        (adsrRun (fun _ => true) adsrW m).x = 0)) ∧
    (∀ s : Adsr, s.gate = true →
      (s.Process false).1.mode = (s.Process true).1.mode ∧
      (s.Process false).2 = (s.Process true).2) :=
  adsr_gate_rise_only_round_trip (fun _ => true) adsrW
    ⟨rfl, fun _ h => h, rfl, rfl, rfl, by norm_num [adsrW], by norm_num [adsrW],
     by norm_num [adsrW], by norm_num [adsrW], by norm_num [adsrW], by norm_num [adsrW],
     by norm_num [adsrW], by norm_num [adsrW], by norm_num [adsrW]⟩

end Pico2CV
